import Mathlib

/-!
Verification of the decompilation pipeline of `unjavac`, a decompiler for
JVM class files written in Rust.

The development shallowly embeds the pipeline passes as executable Lean
functions and proves properties about them:

* the opcode decoder (`src/disassembler/instructions.rs`),
* the CFG builder (`src/decompiler/cfg.rs`),
* the stack-to-variable lifter (`src/decompiler/passes/stack_to_var.rs`),
* the variable propagation pass (`src/decompiler/passes/var_prop.rs`),
* the constructor pass (`src/decompiler/passes/constructors.rs`),
* the control-flow structuring pass (`src/decompiler/passes/structure.rs`).

Modelling conventions:

* Machine integers (`u8`, `u16`, `isize`, `i32`) become `Nat`/`Int`; wrapping
  casts are written out with explicit `% 2 ^ w` arithmetic where the source
  relies on them.
* Rust panics (`assert!`, `unwrap`, `unimplemented!`, `unreachable!`) become
  `Except`/`Option` error results, with one error constructor per distinct
  panic site of interest.
* `HashMap`/`HashSet`/`BTreeMap` become association lists / lists-as-sets in
  insertion order.
* Loops whose termination is not structural use explicit fuel.  Fuel
  exhaustion is a dedicated error value; all theorems either hold for every
  fuel outcome or prove the fuel sufficient.
* `Box`, `Rc` and the `RecExpr` recursion knot disappear: `Expr` is a plain
  recursive inductive and `rec_expr` is the identity.
-/

namespace Unjavac

/-- Comparison orderings of conditional jumps (`Ordering` in
`src/disassembler/instructions.rs`). -/
inductive Ordering where
  | EQ | NE | LT | GE | GT | LE
  deriving Repr, DecidableEq

/-- `Ordering::from_u8`; the `_ => unreachable!()` arm is modelled as
`none`. -/
def Ordering.from_u8 (i : Nat) : Option Ordering :=
  match i with
  | 0 => some .EQ
  | 1 => some .NE
  | 2 => some .LT
  | 3 => some .GE
  | 4 => some .GT
  | 5 => some .LE
  | _ => none

/-- Jump conditions (`JumpCondition`). -/
inductive JumpCondition where
  | CmpZero (ord : Ordering)
  | Cmp (ord : Ordering)
  | CmpRef (ord : Ordering)
  deriving Repr, DecidableEq

/-- A decoded jump (`Jump`): absolute target address and optional
condition. -/
structure Jump where
  address : Nat
  condition : Option JumpCondition
  deriving Repr, DecidableEq

/-- Unary arithmetic operations of the instruction set (`UnaryOp`). -/
inductive UnaryOp where
  | Neg
  deriving Repr, DecidableEq

/-- Binary arithmetic operations of the instruction set (`BinaryOp`). -/
inductive BinaryOp where
  | Add | Sub | Mul | Div | Rem | Shl | Shr | Ushr | And | Or | Xor
  deriving Repr, DecidableEq

/-- Arithmetic instructions (`Arithm`). -/
inductive Arithm where
  | UnaryOp (op : UnaryOp)
  | BinaryOp (op : BinaryOp)
  | IncreaseLocal (local_index : Nat) (increase : Int)
  deriving Repr, DecidableEq

/-- ID of a variable on the stack (`StackVarId = isize`).  Negative values
address slots relative to the top of the stack, in the source's own words:
"If negative (-i), it means the element stack[-i] from the top, i.e.
stack[-1] is the top." -/
abbrev StackVarId := Int

/-- Writable locations (`LValue`). -/
inductive LValue where
  | Local (index : Nat)
  | Stack (index : Int)
  | StaticField (field_ref : Nat)
  | InstanceField (object_stack_index : Int) (field_ref : Nat)
  deriving Repr, DecidableEq

/-- Literal constants (`Literal` in the metadata contract; the snapshot's
`JavaConstant` plus the `Boolean` variant used by the structuring pass). -/
inductive Literal where
  | NullReference
  | Byte (v : Int)
  | Short (v : Int)
  | Integer (v : Int)
  | Long (v : Int)
  | Boolean (v : Bool)
  | Str (v : String)
  deriving Repr, DecidableEq

/-- Readable values (`RValue`). -/
inductive RValue where
  | Constant (lit : Literal)
  | ConstantRef (const_ref : Nat)
  | LValue (lv : LValue)
  deriving Repr, DecidableEq

/-- Invocation kinds (`InvokeKind`). -/
inductive InvokeKind where
  | Virtual | Special | Static
  deriving Repr, DecidableEq

/-- A decoded invocation (`Invoke`). -/
structure Invoke where
  method_index : Nat
  kind : InvokeKind
  deriving Repr, DecidableEq

/-- The decoded instruction set (`Instruction`).  `TypeConv`, `ObjManip`,
`StackManage` and `Synchronized` carry empty enums in the source and are
therefore uninhabitable; `Empty` payloads model that exactly. -/
inductive Instruction where
  | Nop
  | Load (rv : RValue)
  | Store (lv : LValue)
  | Arithm (a : Arithm)
  | TypeConv (e : Empty)
  | ObjManip (e : Empty)
  | StackManage (e : Empty)
  | Jump (j : Jump)
  | Invoke (i : Invoke)
  | Throw
  | Return (value : Option Unit)
  | Synchronized (e : Empty)
  deriving Repr, DecidableEq

/-- A method body as produced by the disassembler (`Code`): instructions
tagged with their byte offset (program counter). -/
structure Code where
  instructions : List (Nat × Instruction)
  deriving Repr, DecidableEq

/-- JVM types (`Type` in `compilation_unit.rs`; renamed because `Type` is a
Lean keyword). -/
inductive Typ where
  | Void | Boolean | Byte | Short | Char | Int | Long | Float | Double
  | Array (elem : Typ)
  | Reference (name : String)
  deriving Repr, DecidableEq

/-- Method signatures (`Signature`). -/
structure Signature where
  parameters : List Typ
  return_type : Typ
  deriving Repr, DecidableEq

/-- A resolved class reference (`ClassRef`). -/
structure ClassRef where
  name : String
  deriving Repr, DecidableEq

/-- A resolved field reference (`FieldRef`). -/
structure FieldRef where
  class_ref : Nat
  name : String
  typ : Typ
  deriving Repr, DecidableEq

/-- A resolved method reference (`MethodRef`). -/
structure MethodRef where
  class_ref : Nat
  name : String
  signature : Signature
  deriving Repr, DecidableEq

/-- Constant-pool-derived tables (`Metadata`), restricted to the tables the
pipeline passes read.  The Rust `HashMap<u16, _>` becomes an association
list; indexing (`metadata.literals[&i]`) is partial lookup. -/
structure Metadata where
  literals : List (Nat × Literal) := []
  class_refs : List (Nat × ClassRef) := []
  field_refs : List (Nat × FieldRef) := []
  method_refs : List (Nat × MethodRef) := []
  deriving Repr

/-- Insertion-sort insert (ascending). -/
def isort_insert (x : Nat) : List Nat → List Nat
  | [] => [x]
  | y :: rest => if x ≤ y then x :: y :: rest else y :: isort_insert x rest

/-- Insertion sort, ascending: the model of collecting a `HashSet` /
`BTreeSet` of labels into a sorted vector. -/
def isort : List Nat → List Nat
  | [] => []
  | x :: rest => isort_insert x (isort rest)

/-- Error-propagating map over a list (the shape of every `for` loop with
fallible body in the source). -/
def eMapM {eps alpha beta : Type} (f : alpha → Except eps beta) :
    List alpha → Except eps (List beta)
  | [] => pure []
  | x :: xs => do
    let y ← f x
    let ys ← eMapM f xs
    pure (y :: ys)

/-- Association-list lookup standing for `HashMap` indexing. -/
def alookup {α : Type} (m : List (Nat × α)) (k : Nat) : Option α :=
  match m with
  | [] => none
  | (k₁, v) :: rest => if k₁ = k then some v else alookup rest k

/-! ### Opcode decoding (`src/disassembler/instructions.rs`) -/

/-- `read_u16_index`: big-endian 16-bit operand from two bytes. -/
def read_u16_index (b1 b2 : Nat) : Nat :=
  (b1 % 256) * 256 + b2 % 256

/-- Sign-extend an 8-bit byte to a signed integer (`as i8`). -/
def i8_of_byte (b : Nat) : Int :=
  let b := b % 256
  if b < 128 then (b : Int) else (b : Int) - 256

/-- Sign-extend a 16-bit value to a signed integer (`as i16`). -/
def i16_of_u16 (v : Nat) : Int :=
  let v := v % 65536
  if v < 32768 then (v : Int) else (v : Int) - 65536

/-- Truncating cast to `u16` (`as u16` on an `i32`). -/
def u16_of_int (v : Int) : Nat :=
  (v % 65536).toNat

/-- `decode_load` (opcode plus operand bytes); `unimplemented!()` arms are
`none`. -/
def decode_load (opcode : Nat) (bytes : List Nat) : Option RValue :=
  if 0x02 ≤ opcode ∧ opcode ≤ 0x08 then
    some (RValue.Constant (Literal.Integer ((opcode : Int) - 0x03)))
  else if opcode = 0x12 then
    match bytes with
    | b :: _ => some (RValue.ConstantRef (b % 256))
    | [] => none
  else if 0x1a ≤ opcode ∧ opcode ≤ 0x1d then
    some (RValue.LValue (LValue.Local (opcode - 0x1a)))
  else if 0x2a ≤ opcode ∧ opcode ≤ 0x2d then
    some (RValue.LValue (LValue.Local (opcode - 0x2a)))
  else if opcode = 0xb2 then
    match bytes with
    | b1 :: b2 :: _ => some (RValue.LValue (LValue.StaticField (read_u16_index b1 b2)))
    | _ => none
  else if opcode = 0xb4 then
    match bytes with
    | b1 :: b2 :: _ =>
        some (RValue.LValue (LValue.InstanceField (-1) (read_u16_index b1 b2)))
    | _ => none
  else none

/-- `decode_store`; `unimplemented!()` arms are `none`. -/
def decode_store (opcode : Nat) (bytes : List Nat) : Option LValue :=
  if 0x3b ≤ opcode ∧ opcode ≤ 0x3e then
    some (LValue.Local (opcode - 0x3b))
  else if opcode = 0xb3 then
    match bytes with
    | b1 :: b2 :: _ => some (LValue.StaticField (read_u16_index b1 b2))
    | _ => none
  else if opcode = 0xb5 then
    match bytes with
    | b1 :: b2 :: _ => some (LValue.InstanceField (-2) (read_u16_index b1 b2))
    | _ => none
  else none

/-- `decode_jump`: the `0xa5..=0xa6` arm subtracts the base `0x9f` of the
previous arm, exactly as the source does. -/
def decode_jump (opcode : Nat) (pc : Nat) (bytes : List Nat) : Option Jump :=
  match bytes with
  | b1 :: b2 :: _ =>
    let offset := i16_of_u16 (read_u16_index b1 b2)
    let address := u16_of_int ((pc : Int) + offset)
    let condition : Option (Option JumpCondition) :=
      if 0x99 ≤ opcode ∧ opcode ≤ 0x9e then
        (Ordering.from_u8 (opcode - 0x99)).map (fun o => some (JumpCondition.CmpZero o))
      else if 0x9f ≤ opcode ∧ opcode ≤ 0xa4 then
        (Ordering.from_u8 (opcode - 0x9f)).map (fun o => some (JumpCondition.Cmp o))
      else if 0xa5 ≤ opcode ∧ opcode ≤ 0xa6 then
        (Ordering.from_u8 (opcode - 0x9f)).map (fun o => some (JumpCondition.CmpRef o))
      else if opcode = 0xa7 then
        some none
      else none
    condition.map (fun c => { address := address, condition := c })
  | _ => none

/-- `Modelled from the spec:` the specification fixes the intended decoding
of the reference-comparison opcodes: "`0xa5..=0xa6` → `CmpRef`" with
"`Ordering` ... indexed 0..5 from the base", i.e. the index is taken from
the range's own base `0xa5`. -/
def spec_decode_cmp_ref (opcode : Nat) (pc : Nat) (bytes : List Nat) : Option Jump :=
  match bytes with
  | b1 :: b2 :: _ =>
    let offset := i16_of_u16 (read_u16_index b1 b2)
    let address := u16_of_int ((pc : Int) + offset)
    if 0xa5 ≤ opcode ∧ opcode ≤ 0xa6 then
      (Ordering.from_u8 (opcode - 0xa5)).map
        (fun o => { address := address, condition := some (JumpCondition.CmpRef o) })
    else none
  | _ => none

/-! ### Decompiler IR (`src/decompiler/types.rs`) -/

/-- Identifiers (`Ident = String`). -/
abbrev Ident := String

/-- Unary operators of the expression language (`UnOp`). -/
inductive UnOp where
  | Neg | BitNot | LogNot
  deriving Repr, DecidableEq

/-- Binary operators of the expression language (`BinOp`). -/
inductive BinOp where
  | Cmp (ord : Ordering)
  | Add | Sub | Mul | Div | Rem | Shl | Shr | Ushr
  | BitAnd | BitOr | BitXor | LogAnd | LogOr
  deriving Repr, DecidableEq

mutual
/-- Expressions (`Expr`); `Box`/`RecExpr` indirections disappear.  The
`Assign` fields named `to`/`from` in the source are `tgt`/`rhs` here (both
are reserved tokens); `then`/`else` of `IfThenElse` become `thn`/`els`
likewise. -/
inductive Expr where
  | Literal (lit : Literal)
  | Assignable (a : Assignable)
  | UnaryOp (op : UnOp) (e : Expr)
  | BinaryOp (op : BinOp) (e₁ e₂ : Expr)
  | IfThenElse (cond thn els : Expr)
  | Invoke (this : Option Expr) (method : MethodRef) (cls : ClassRef) (args : List Expr)
  | Assign (tgt : Assignable) (op : Option BinOp) (rhs : Expr)
  | New (cls : Typ) (args : List Expr)
  | This
  | Super

/-- Assignable locations of the expression language (`Assignable`). -/
inductive Assignable where
  | Variable (ident : Ident) (version : Nat)
  | Field (this : Option Expr) (cls : ClassRef) (field : FieldRef)
  | ArrayAccess (array index : Expr)
end

/-- `mk_variable`. -/
def mk_variable (id : Ident) : Expr :=
  Expr.Assignable (Assignable.Variable id 0)

mutual
/-- Statements (`Statement`), restricted to the variants the pipeline can
construct (`For`, `Throw`, `Synchronized` and `Try` never occur in any pass
output and are omitted). -/
inductive Statement where
  | Nop
  | Expr (e : Expr)
  | Block (b : Blk)
  | If (cond : Expr) (thn : Blk) (els : Option Blk)
  | While (label : Option Ident) (cond : Expr) (body : Blk) (do_while : Bool)
  | Break (label : Option Ident)
  | Continue (label : Option Ident)
  | Return (value : Option Expr)
  | ThisCall (args : List Expr)
  | SuperCall (args : List Expr)

/-- Blocks (`Block`): local declarations (always empty in pass output, so
only their count is kept) and statements. -/
inductive Blk where
  | mk (decls : List Unit) (stmts : List Statement)
end

/-- `stmt_expr`. -/
def stmt_expr (e : Expr) : Statement := Statement.Expr e

/-- The statements of a block. -/
def Blk.stmts : Blk → List Statement
  | .mk _ s => s

/-! ### Control-flow graphs (`src/decompiler/cfg.rs`)

`petgraph::Graph` is embedded as a node list (the node's index is its
`Label`) plus an edge list in insertion order.  `neighbors_directed`
iterates edges in reverse insertion order in petgraph; the successor /
predecessor helpers below reverse the filtered edge list accordingly. -/

/-- A basic block (`BasicBlock`): statements and an optional terminator
condition. -/
structure BasicBlock (S C : Type) where
  stmts : List S := []
  terminator : Option C := none
  deriving Repr

instance {S C : Type} : Inhabited (BasicBlock S C) := ⟨{}⟩

/-- A control-flow graph (`Cfg`). -/
structure Cfg (S C : Type) where
  nodes : List (BasicBlock S C)
  edges : List (Nat × Nat × Bool)
  entry_point : Nat
  exit_point : Nat
  deriving Repr

/-- Outgoing neighbors of `v` (`neighbors_directed(v, Outgoing)`), in
petgraph's reverse-insertion order. -/
def successors (edges : List (Nat × Nat × Bool)) (v : Nat) : List Nat :=
  ((edges.filter (fun e => e.1 = v)).map (fun e => e.2.1)).reverse

/-- Incoming neighbors of `v` (`neighbors_directed(v, Incoming)`). -/
def predecessors (edges : List (Nat × Nat × Bool)) (v : Nat) : List Nat :=
  ((edges.filter (fun e => e.2.1 = v)).map (fun e => e.1)).reverse

/-- Outgoing `(weight, target)` pairs of `v` in insertion order. -/
def out_edges (edges : List (Nat × Nat × Bool)) (v : Nat) : List (Bool × Nat) :=
  (edges.filter (fun e => e.1 = v)).map (fun e => (e.2.2, e.2.1))

/-! ### Dominator analysis (`Dominators` and `compute_dominators`)

The source calls `petgraph::algo::dominators::simple_fast`, which computes
the immediate-dominator map of the nodes reachable from the root (the root
itself gets no map entry).  The embedding computes dominator sets of the
reachable subgraph by fixed point and extracts each node's immediate
dominator as its strict dominator with the largest dominator set; for a
rooted graph this is the same unique immediate-dominator map. -/

/-- The `Dominators` structure: root and immediate-(post)dominator map. -/
structure Dominators where
  root : Nat
  map : List (Nat × Nat)
  reversed : Bool
  deriving Repr, DecidableEq

/-- `Dominators::get_immediate`. -/
def Dominators.get_immediate (d : Dominators) (node : Nat) : Option Nat :=
  alookup d.map node

/-- `Dominators::is_for` (does `node` (post)dominate `check`?), walking the
immediate-dominator chain; fueled by the map size, which bounds the chain
length of any well-formed map. -/
def Dominators.is_for_go (d : Dominators) (node : Nat) : Nat → Nat → Bool
  | 0, _ => false
  | fuel + 1, check =>
    if check = node then true
    else
      match d.get_immediate check with
      | some imm => d.is_for_go node fuel imm
      | none => false

/-- `Dominators::is_for`. -/
def Dominators.is_for (d : Dominators) (node check : Nat) : Bool :=
  d.is_for_go node (d.map.length + 1) check

/-- `Dominators::get_all`: the chain of (post)dominators from a node up to
the root, the node itself first. -/
def Dominators.get_all_go (d : Dominators) : Nat → Nat → List Nat
  | 0, _ => []
  | fuel + 1, node =>
    node ::
      match d.get_immediate node with
      | some imm => d.get_all_go fuel imm
      | none => []

/-- `Dominators::get_all`. -/
def Dominators.get_all (d : Dominators) (node : Nat) : List Nat :=
  d.get_all_go (d.map.length + 1) node

/-- The position-by-position agreement loop of `Dominators::get_common`. -/
def get_common_go (paths : List (List Nat)) (first : List Nat) :
    Nat → Nat → Option Nat → Option Nat
  | 0, _, nearest => nearest
  | fuel + 1, distance, nearest =>
    match first.get? distance with
    | none => nearest
    | some node =>
      if paths.all (fun path => path.get? distance = some node) then
        get_common_go paths first fuel (distance + 1) (some node)
      else
        nearest

/-- `Dominators::get_common`: nearest common (post)dominator of a node
list; `none` for the empty list. -/
def Dominators.get_common (d : Dominators) (nodes : List Nat) : Option Nat :=
  if nodes.isEmpty then none
  else
    let paths := nodes.map (fun n => (d.get_all n).reverse)
    let first := paths.headD []
    get_common_go paths first first.length 0 none

/-- Nodes reachable from `root` following `succ`, accumulated depth-first
with fuel. -/
def reachable_go (succ : Nat → List Nat) : Nat → List Nat → List Nat → List Nat
  | 0, _, visited => visited
  | _ + 1, [], visited => visited
  | fuel + 1, v :: stack, visited =>
    if visited.contains v then reachable_go succ fuel stack visited
    else reachable_go succ fuel (succ v ++ stack) (visited ++ [v])

/-- Nodes of `g` reachable from `root`. -/
def reachable (edgeCount : Nat) (succ : Nat → List Nat) (root : Nat) : List Nat :=
  reachable_go succ (edgeCount + edgeCount + 2) [root] []

/-- One round of the dominator-set fixed point: `D(v) = {v} ∪ ⋂ D(p)` over
the reachable predecessors `p` of `v`; the root is pinned to `{root}`. -/
def dom_sets_step (pred : Nat → List Nat) (root : Nat) (reach : List Nat)
    (sets : List (Nat × List Nat)) : List (Nat × List Nat) :=
  reach.map (fun v =>
    if v = root then (v, [root])
    else
      let ps := (pred v).filter (fun p => reach.contains p)
      let inter := ps.foldl
        (fun acc p =>
          let s := (alookup sets p).getD []
          match acc with
          | none => some s
          | some acc => some (acc.filter (fun x => s.contains x))
          ) (none : Option (List Nat))
      (v, v :: ((inter.getD []).filter (fun x => x ≠ v))))

/-- Iterate the dominator-set fixed point. -/
def dom_sets_iter (pred : Nat → List Nat) (root : Nat) (reach : List Nat) :
    Nat → List (Nat × List Nat) → List (Nat × List Nat)
  | 0, sets => sets
  | fuel + 1, sets => dom_sets_iter pred root reach fuel (dom_sets_step pred root reach sets)

/-- Dominator sets of the subgraph of `reach` rooted at `root`. -/
def dom_sets (pred : Nat → List Nat) (root : Nat) (reach : List Nat) :
    List (Nat × List Nat) :=
  dom_sets_iter pred root reach (reach.length + 1)
    (reach.map (fun v => (v, if v = root then [root] else reach)))

/-- Immediate dominators derived from dominator sets: for each reachable
node other than the root, its strict dominator with the largest dominator
set. -/
def idom_map (pred : Nat → List Nat) (root : Nat) (reach : List Nat) :
    List (Nat × Nat) :=
  let sets := dom_sets pred root reach
  (reach.filter (fun v => v ≠ root)).filterMap (fun v =>
    let strict := ((alookup sets v).getD []).filter (fun d => d ≠ v)
    let best := strict.foldl
      (fun acc d =>
        match acc with
        | none => some d
        | some b =>
          if ((alookup sets d).getD []).length > ((alookup sets b).getD []).length
          then some d else some b)
      none
    best.map (fun b => (v, b)))

/-- `Cfg::compute_dominators`: dominators from the entry point, or
postdominators from the exit point on the reversed graph. -/
def Cfg.compute_dominators {S C : Type} (cfg : Cfg S C) (post : Bool) : Dominators :=
  let (root, succ, pred) :=
    if post then
      (cfg.exit_point, predecessors cfg.edges, successors cfg.edges)
    else
      (cfg.entry_point, successors cfg.edges, predecessors cfg.edges)
  let reach := reachable cfg.edges.length succ root
  { root := root, map := idom_map pred root reach, reversed := post }

/-! ### CFG construction (`build_cfg` in `src/decompiler/cfg.rs`) -/

/-- Panics of `build_cfg`, as error values: a jump target that is not an
instruction boundary (`pc_to_index[&address]` / `pc_to_bb_id[&address]`),
and the `last().unwrap()` on a method without instructions. -/
inductive CfgErr where
  | badJumpTarget (address : Nat)
  | emptyCode
  deriving Repr, DecidableEq

/-- `pc → instruction index` of a method (`pc_to_index`). -/
def pc_to_index (instrs : List (Nat × Instruction)) : List (Nat × Nat) :=
  instrs.enum.map (fun p => (p.2.1, p.1))

/-- `instruction index → pc` of a method (`index_to_pc`). -/
def index_to_pc (instrs : List (Nat × Instruction)) (i : Nat) : Option Nat :=
  (instrs.get? i).map (fun p => p.1)

/-- The sorted leader indices (`bb_starts`): index 0, every jump target,
and the index after every jump or return. -/
def bb_starts (instrs : List (Nat × Instruction)) : Except CfgErr (List Nat) := do
  let pti := pc_to_index instrs
  let extra ← eMapM (fun p => do
    let next_pc ← match alookup pti p.1 with
      | some i => pure (if i + 1 < instrs.length then [i + 1] else [])
      | none => pure []
    match p.2 with
    | .Jump j =>
      match alookup pti j.address with
      | some target => pure (next_pc ++ [target])
      | none => throw (CfgErr.badJumpTarget j.address)
    | .Return _ => pure next_pc
    | _ => pure ([] : List Nat)) instrs
  pure ((isort (0 :: extra.flatten)).dedup)

/-- Split the instruction list at the leader indices, producing the ordered
basic blocks (the reversed `split_off` loop of the source). -/
def split_blocks (instrs : List (Nat × Instruction)) (starts : List Nat) :
    List (List (Nat × Instruction)) :=
  (starts.zip (starts.drop 1 ++ [instrs.length])).map
    (fun p => ((instrs.drop p.1).take (p.2 - p.1)))

/-- `pc_to_bb_id`: starting pc of each block to its block id. -/
def pc_to_bb_id (instrs : List (Nat × Instruction)) (starts : List Nat) :
    Except CfgErr (List (Nat × Nat)) :=
  eMapM (fun p =>
    match index_to_pc instrs p.2 with
    | some pc => pure (pc, p.1)
    | none => throw CfgErr.emptyCode) starts.enum

/-- Process one basic block (the per-block loop of `build_cfg`): outgoing
edges in push order, the retained instructions, and the terminator.
An unconditional jump contributes the single edge
`(block_id, target, true)`; a conditional jump additionally contributes the
fall-through edge `(block_id, block_id + 1, false)` first; the jump itself
is dropped. -/
def block_result (ptb : List (Nat × Nat)) (block_id : Nat)
    (block : List (Nat × Instruction)) :
    Except CfgErr (BasicBlock Instruction JumpCondition × List (Nat × Nat × Bool)) := do
  match block.getLast? with
  | none => throw CfgErr.emptyCode
  | some (_, last) =>
    match last with
    | .Jump j => do
      let target ← match alookup ptb j.address with
        | some t => pure t
        | none => throw (CfgErr.badJumpTarget j.address)
      let edges :=
        (if j.condition.isSome then [(block_id, block_id + 1, false)] else [])
          ++ [(block_id, target, true)]
      pure ({ stmts := (block.dropLast).map (fun p => p.2),
              terminator := j.condition }, edges)
    | .Return _ =>
      pure ({ stmts := block.map (fun p => p.2), terminator := none }, [])
    | _ =>
      pure ({ stmts := block.map (fun p => p.2), terminator := none },
            [(block_id, block_id + 1, false)])

/-- Sources that have no outgoing edge in `edges` among node ids
`0 .. n-1`, except `exit` (`outdegree_zero_nodes`). -/
def outdegree_zero (n : Nat) (edges : List (Nat × Nat × Bool)) (exit : Nat) :
    List Nat :=
  (List.range n).filter (fun v => (edges.all (fun e => e.1 ≠ v)) && v ≠ exit)

/-- `build_cfg`: split a method body into basic blocks, wire the jump and
fall-through edges, then append the synthetic entry and exit blocks and
close every edge-less node to the exit. -/
def build_cfg (code : Code) : Except CfgErr (Cfg Instruction JumpCondition) := do
  let instrs := code.instructions
  let starts ← bb_starts instrs
  let blocks := split_blocks instrs starts
  let ptb ← pc_to_bb_id instrs starts
  let results ← eMapM (fun p => block_result ptb p.1 p.2) blocks.enum
  let bbs := results.map (fun r => r.1)
  let block_edges := (results.map (fun r => r.2)).flatten
  let entry_point := bbs.length
  let exit_point := bbs.length + 1
  let edges := block_edges ++ [(entry_point, 0, false)]
  let closing := (outdegree_zero (bbs.length + 2) edges exit_point).map
    (fun v => (v, exit_point, false))
  pure { nodes := bbs ++ [default, default],
         edges := edges ++ closing,
         entry_point := entry_point,
         exit_point := exit_point }

/-! ### Stack-to-variable lifting (`src/decompiler/passes/stack_to_var.rs`)

`StackLayout` is a single `isize` counter (the symbolic stack height); it
is embedded as `Int`.  The snapshot's `Expr<RecExpr>` recursion knot is the
plain `Expr` here, so `rec_expr` is the identity and is not written. -/

/-- `convert_un_op`. -/
def convert_un_op : UnaryOp → UnOp
  | .Neg => .Neg

/-- `convert_bin_op`. -/
def convert_bin_op : BinaryOp → BinOp
  | .Add => .Add
  | .Sub => .Sub
  | .Mul => .Mul
  | .Div => .Div
  | .Rem => .Rem
  | .Shl => .Shl
  | .Shr => .Shr
  | .Ushr => .Ushr
  | .And => .BitAnd
  | .Or => .BitOr
  | .Xor => .BitXor

/-- Panics of the lifting pass, as error values. -/
inductive LiftErr where
  | popUnderflow
  | unresolvedConstant (index : Nat)
  | unimplementedInstr
  | jumpInBlock
  | joinMismatch (block : Nat) (found expected : Int)
  | noLayout (block : Nat)
  | outOfFuel
  deriving Repr, DecidableEq

/-- `StackLayout::get`: `self.0 - i`, exactly as written in the source
(`i` is the raw `StackVarId` stored in the instruction). -/
def StackLayout.get (s i : Int) : Int := s - i

/-- `StackLayout::push`: returns the pushed slot's id and the new height. -/
def StackLayout.push (s : Int) : Int × Int := (s, s + 1)

/-- `StackLayout::pop`: decrement, then `assert!(self.0 >= 0)`; returns the
new height twice (the popped slot's id equals the new height). -/
def StackLayout.pop (s : Int) : Except LiftErr (Int × Int) :=
  if s - 1 < 0 then throw LiftErr.popUnderflow else pure (s - 1, s - 1)

/-- `StackLayout::stack`: the identifier of stack slot `i`. -/
def stack_name (i : Int) : Ident := "stack_" ++ toString i

/-- `StackLayout::local`: the identifier of local slot `i`. -/
def local_name (i : Nat) : Ident := "local_" ++ toString i

/-- `StackLayout::make_stack_vars_lvalue`; returns the assignable and the
layout after removing any consumed stack slot. -/
def make_stack_vars_lvalue (s : Int) (lv : LValue) (md : Metadata) :
    Except LiftErr (Assignable × Int) :=
  match lv with
  | .Local index => pure (.Variable (local_name index) 0, s)
  | .Stack index => pure (.Variable (stack_name (StackLayout.get s index)) 0, s - 1)
  | .StaticField field_ref =>
    match alookup md.field_refs field_ref with
    | none => throw (LiftErr.unresolvedConstant field_ref)
    | some field =>
      match alookup md.class_refs field.class_ref with
      | none => throw (LiftErr.unresolvedConstant field.class_ref)
      | some cls => pure (.Field none cls field, s)
  | .InstanceField object_stack_index field_ref =>
    match alookup md.field_refs field_ref with
    | none => throw (LiftErr.unresolvedConstant field_ref)
    | some field =>
      match alookup md.class_refs field.class_ref with
      | none => throw (LiftErr.unresolvedConstant field.class_ref)
      | some cls =>
        pure (.Field (some (mk_variable (stack_name (StackLayout.get s object_stack_index))))
                cls field,
              s - 1)

/-- `StackLayout::make_stack_vars_rvalue`. -/
def make_stack_vars_rvalue (s : Int) (rv : RValue) (md : Metadata) :
    Except LiftErr (Expr × Int) :=
  match rv with
  | .Constant lit => pure (.Literal lit, s)
  | .ConstantRef const_ref =>
    match alookup md.literals const_ref with
    | none => throw (LiftErr.unresolvedConstant const_ref)
    | some lit => pure (.Literal lit, s)
  | .LValue lv => do
    let (a, s₁) ← make_stack_vars_lvalue s lv md
    pure (.Assignable a, s₁)

/-- The integer range `a..b` (`Rust Range<isize>`): empty when `b ≤ a`. -/
def int_range (a b : Int) : List Int :=
  (List.range (b - a).toNat).map (fun k => a + (k : Int))

/-- The receiver handling of `Invoke` lifting: `Special`/`Virtual` pop the
receiver object, `Static` pops nothing. -/
def invoke_receiver (kind : InvokeKind) (s₁ : Int) : Except LiftErr (Option Expr × Int) :=
  match kind with
  | .Special | .Virtual => do
    let (top, s₂) ← StackLayout.pop s₁
    pure (some (mk_variable (stack_name top)), s₂)
  | .Static => pure (none, s₁)

/-- `StackLayout::execute`: per-instruction semantics, producing the
emitted statements and the new layout. -/
def execute (s : Int) (inst : Instruction) (md : Metadata) :
    Except LiftErr (List Statement × Int) :=
  match inst with
  | .Nop => pure ([], s)
  | .Load rv => do
    let (expr, s₁) ← make_stack_vars_rvalue s rv md
    let (top, s₂) := StackLayout.push s₁
    pure ([stmt_expr (.Assign (.Variable (stack_name top) 0) none expr)], s₂)
  | .Store lv => do
    let (assignable, s₁) ← make_stack_vars_lvalue s lv md
    let (top, s₂) ← StackLayout.pop s₁
    pure ([stmt_expr (.Assign assignable none (mk_variable (stack_name top)))], s₂)
  | .Arithm (.UnaryOp op) => do
    let (v, s₁) ← StackLayout.pop s
    let (res, s₂) := StackLayout.push s₁
    pure ([stmt_expr (.Assign (.Variable (stack_name res) 0) none
            (.UnaryOp (convert_un_op op) (mk_variable (stack_name v))))], s₂)
  | .Arithm (.BinaryOp op) => do
    let (w, s₁) ← StackLayout.pop s
    let (v, s₂) ← StackLayout.pop s₁
    let (res, s₃) := StackLayout.push s₂
    pure ([stmt_expr (.Assign (.Variable (stack_name res) 0) none
            (.BinaryOp (convert_bin_op op)
              (mk_variable (stack_name v)) (mk_variable (stack_name w))))], s₃)
  | .Arithm (.IncreaseLocal local_index increase) =>
    pure ([stmt_expr (.Assign (.Variable (local_name local_index) 0)
            (some BinOp.Add) (.Literal (.Integer increase)))], s)
  | .TypeConv e => e.elim
  | .ObjManip e => e.elim
  | .StackManage e => e.elim
  | .Jump _ => throw LiftErr.jumpInBlock
  | .Invoke ⟨method_index, kind⟩ =>
    match alookup md.method_refs method_index with
    | none => throw (LiftErr.unresolvedConstant method_index)
    | some method_ref =>
      match alookup md.class_refs method_ref.class_ref with
      | none => throw (LiftErr.unresolvedConstant method_ref.class_ref)
      | some class_ref => do
        let args_count : Int := method_ref.signature.parameters.length
        let args_range := int_range (s - args_count) s
        let s₁ := s - args_count
        let (this_object, s₂) ← invoke_receiver kind s₁
        let method_call :=
          Expr.Invoke this_object method_ref class_ref
            (args_range.map (fun i => mk_variable (stack_name i)))
        if method_ref.signature.return_type = Typ.Void then
          pure ([stmt_expr method_call], s₂)
        else
          let (result, s₃) := StackLayout.push s₂
          pure ([stmt_expr (.Assign (.Variable (stack_name result) 0) none method_call)], s₃)
  | .Throw => throw LiftErr.unimplementedInstr
  | .Return none => pure ([Statement.Return none], s)
  | .Return (some _) => do
    let (top, s₁) ← StackLayout.pop s
    pure ([Statement.Return (some (mk_variable (stack_name top)))], s₁)
  | .Synchronized e => e.elim

/-- `StackLayout::cond_to_expr`: lift a terminator condition. -/
def cond_to_expr (s : Int) (cond : JumpCondition) : Except LiftErr (Expr × Int) :=
  match cond with
  | .CmpZero ord => do
    let (v, s₁) ← StackLayout.pop s
    pure (.BinaryOp (.Cmp ord) (mk_variable (stack_name v)) (.Literal (.Integer 0)), s₁)
  | .Cmp ord | .CmpRef ord => do
    let (w, s₁) ← StackLayout.pop s
    let (v, s₂) ← StackLayout.pop s₁
    pure (.BinaryOp (.Cmp ord) (mk_variable (stack_name v)) (mk_variable (stack_name w)), s₂)

/-- Run a straight-line instruction sequence (the statement loop of the
per-block body in `transform`). -/
def execute_list (md : Metadata) : Int → List Instruction →
    Except LiftErr (List Statement × Int)
  | s, [] => pure ([], s)
  | s, inst :: rest => do
    let (sts, s₁) ← execute s inst md
    let (rest_sts, s₂) ← execute_list md s₁ rest
    pure (sts ++ rest_sts, s₂)

/-- Run a whole basic block: all instructions, then the terminator. -/
def execute_block (s : Int) (bb : BasicBlock Instruction JumpCondition) (md : Metadata) :
    Except LiftErr (BasicBlock Statement Expr × Int) := do
  let (stmts, s₁) ← execute_list md s bb.stmts
  match bb.terminator with
  | none => pure ({ stmts := stmts, terminator := none }, s₁)
  | some t => do
    let (e, s₂) ← cond_to_expr s₁ t
    pure ({ stmts := stmts, terminator := some e }, s₂)

/-- Record (or check) the post-block layout at each successor: the
`assert_eq!(stack, stack_at_w, ...)` loop of `transform`. -/
def record_succs (s₁ : Int) : List Nat → List (Option Int) →
    Except LiftErr (List (Option Int))
  | [], sa => pure sa
  | w :: rest, sa =>
    match sa.getD w none with
    | some recorded =>
      if s₁ = recorded then record_succs s₁ rest sa
      else throw (LiftErr.joinMismatch w s₁ recorded)
    | none => record_succs s₁ rest (sa.set w (some s₁))

/-- State of the lifting traversal: petgraph's `Dfs` (discovered set and
explicit stack) plus `stack_at_bb` and the new blocks. -/
structure LiftState where
  visited : List Nat
  stack : List Nat
  stack_at : List (Option Int)
  new_bbs : List (BasicBlock Statement Expr)

/-- The depth-first traversal loop of `transform`: pop a node, execute its
block from the recorded layout, then record (or check) the layout at each
successor, failing on a join disagreement exactly like the
`assert_eq!(stack, stack_at_w, ...)` in the source. -/
def transform_go (cfg : Cfg Instruction JumpCondition) (md : Metadata) :
    Nat → LiftState → Except LiftErr (List (BasicBlock Statement Expr))
  | 0, _ => throw LiftErr.outOfFuel
  | fuel + 1, st =>
    match st.stack with
    | [] => pure st.new_bbs
    | v :: rest =>
      if st.visited.contains v then
        transform_go cfg md fuel { st with stack := rest }
      else
        match st.stack_at.getD v none with
        | none => throw (LiftErr.noLayout v)
        | some s => do
          let visited := st.visited ++ [v]
          let succs := successors cfg.edges v
          let pushes := (succs.filter (fun w => !visited.contains w)).reverse
          let (new_bb, s₁) ← execute_block s (cfg.nodes.getD v default) md
          let stack_at ← record_succs s₁ succs st.stack_at
          transform_go cfg md fuel
            { visited := visited, stack := pushes ++ rest,
              stack_at := stack_at, new_bbs := st.new_bbs.set v new_bb }

/-- The initial traversal state: DFS begins at node 0 with the empty
layout. -/
def lift_init (n : Nat) : LiftState :=
  { visited := [], stack := [0],
    stack_at := (List.replicate n (none : Option Int)).set 0 (some 0),
    new_bbs := List.replicate n default }

/-- `transform`: lift a whole CFG, keeping the edge structure. -/
def transform (cfg : Cfg Instruction JumpCondition) (md : Metadata) :
    Except LiftErr (Cfg Statement Expr) := do
  let n := cfg.nodes.length
  let new_bbs ← transform_go cfg md (cfg.edges.length + n + 2) (lift_init n)
  pure { nodes := new_bbs, edges := cfg.edges,
         entry_point := cfg.entry_point, exit_point := cfg.exit_point }

/-- Is an error the join-disagreement panic? -/
def LiftErr.is_join : LiftErr → Bool
  | .joinMismatch _ _ _ => true
  | _ => false

/-- The number of edges whose source has not been visited yet (the fuel
measure of the lifting traversal). -/
def unvisited_out (edges : List (Nat × Nat × Bool)) (visited : List Nat) : Nat :=
  (edges.filter (fun e => decide (e.1 ∉ visited))).length

/-- The invariant of the lifting traversal under a consistent layout
assignment `L`: every recorded layout agrees with `L`, every node on the
DFS stack has a recorded layout and is in range, and the record table has
one slot per node. -/
def lift_inv (cfg : Cfg Instruction JumpCondition) (L : Nat → Int) (st : LiftState) : Prop :=
  (∀ x s, st.stack_at.getD x none = some s → s = L x) ∧
  (∀ v ∈ st.stack, (st.stack_at.getD v none).isSome = true) ∧
  (∀ v ∈ st.stack, v < cfg.nodes.length) ∧
  st.stack_at.length = cfg.nodes.length

/-! ### Variable propagation (`src/decompiler/passes/var_prop.rs`)

`HashMap`s become insertion-ordered association lists and `HashSet`s
insertion-ordered duplicate-free lists.  Recursion over the (nested)
expression tree uses explicit fuel so that every definition stays
kernel-reducible; the fuel is always taken large enough for the concrete
runs in this file, and no theorem depends on its exact value. -/

/-- Generic association-list lookup. -/
def assoc {κ α : Type} [DecidableEq κ] (m : List (κ × α)) (k : κ) : Option α :=
  match m with
  | [] => none
  | (k₁, v) :: rest => if k₁ = k then some v else assoc rest k

/-- Association-list insert: replace in place or append
(`HashMap::insert`). -/
def assoc_insert {κ α : Type} [DecidableEq κ] (m : List (κ × α)) (k : κ) (v : α) :
    List (κ × α) :=
  match m with
  | [] => [(k, v)]
  | (k₁, v₁) :: rest =>
    if k₁ = k then (k₁, v) :: rest else (k₁, v₁) :: assoc_insert rest k v

/-- Association-list in-place update (`HashMap::get_mut`); missing keys are
left untouched (the corresponding `unwrap` never fails in the pass). -/
def assoc_update {κ α : Type} [DecidableEq κ] (m : List (κ × α)) (k : κ) (f : α → α) :
    List (κ × α) :=
  m.map (fun p => if p.1 = k then (p.1, f p.2) else p)

/-- Set union preserving insertion order (`HashSet::extend`). -/
def set_extend {α : Type} [DecidableEq α] (s t : List α) : List α :=
  s ++ t.filter (fun x => ¬ s.contains x)

/-- Set inclusion (`HashSet::is_subset`). -/
def set_subset {α : Type} [DecidableEq α] (s t : List α) : Bool :=
  s.all (fun x => t.contains x)

/-- A definition site: basic-block and statement index (`Location`). -/
abbrev Location := Nat × Nat

/-- A single-assignment definition record (`Definition`). -/
structure Definition where
  id : Location
  ident : Ident
  value : Expr
  relevant_defs : List (Ident × List Location)
  uses : Nat
  non_propagatable_uses : Nat

/-- The result of the reaching-definition analysis (`DefinitionInfo`). -/
structure DefinitionInfo where
  definitions : List (Location × Definition)
  relevant_on_bb_entry : List (List (Ident × List Location))

mutual
/-- The variable reads of an expression, in `UsageVisitor::visit_expr` /
`walk_expr` order: a read is an `Expr::Assignable(Assignable::Variable)`
occurrence (left-hand sides of assignments are visited as assignables and
therefore not counted, but objects of field accesses are). -/
def readsE (fuel : Nat) (e : Expr) : List Ident :=
  match fuel, e with
  | 0, _ => []
  | _, .Literal _ => []
  | fuel + 1, .Assignable a =>
    (match a with
     | .Variable v _ => [v]
     | _ => []) ++ readsA fuel a
  | fuel + 1, .UnaryOp _ e => readsE fuel e
  | fuel + 1, .BinaryOp _ e₁ e₂ => readsE fuel e₁ ++ readsE fuel e₂
  | fuel + 1, .IfThenElse c t e => readsE fuel c ++ readsE fuel t ++ readsE fuel e
  | fuel + 1, .Invoke this _ _ args =>
    (match this with | some e => readsE fuel e | none => []) ++
      (args.map (readsE fuel)).flatten
  | fuel + 1, .Assign tgt _ rhs => readsA fuel tgt ++ readsE fuel rhs
  | fuel + 1, .New _ args => (args.map (readsE fuel)).flatten
  | _, .This => []
  | _, .Super => []

/-- The variable reads inside an assignable (`walk_assignable`). -/
def readsA (fuel : Nat) (a : Assignable) : List Ident :=
  match fuel, a with
  | 0, _ => []
  | _, .Variable _ _ => []
  | fuel + 1, .Field this _ _ =>
    match this with | some e => readsE fuel e | none => []
  | fuel + 1, .ArrayAccess arr idx => readsE fuel arr ++ readsE fuel idx
end

/-- The variable reads of a statement (`walk_statement`). -/
def readsS (fuel : Nat) (s : Statement) : List Ident :=
  match fuel, s with
  | 0, _ => []
  | _, .Nop => []
  | fuel + 1, .Expr e => readsE fuel e
  | fuel + 1, .Block b => (b.stmts.map (readsS fuel)).flatten
  | fuel + 1, .If c t e =>
    readsE fuel c ++ (t.stmts.map (readsS fuel)).flatten ++
      (match e with | some b => (b.stmts.map (readsS fuel)).flatten | none => [])
  | fuel + 1, .While _ c b _ => readsE fuel c ++ (b.stmts.map (readsS fuel)).flatten
  | _, .Break _ => []
  | _, .Continue _ => []
  | fuel + 1, .Return e => match e with | some e => readsE fuel e | none => []
  | fuel + 1, .ThisCall args => (args.map (readsE fuel)).flatten
  | fuel + 1, .SuperCall args => (args.map (readsE fuel)).flatten

/-- Expression-recursion fuel; larger than the depth of any expression
arising in this development. -/
def expr_fuel : Nat := 1000

/-- `update_usages`: count each variable read against every definition of
the variable reaching the read; a read with more than one reaching
definition is non-propagatable. -/
def update_usages (stmt : Statement)
    (relevant_defs : List (Ident × List Location))
    (definitions : List (Location × Definition)) : List (Location × Definition) :=
  (readsS expr_fuel stmt).foldl
    (fun defs var =>
      let possible_definitions := (assoc relevant_defs var).getD []
      let propagatable := possible_definitions.length ≤ 1
      possible_definitions.foldl
        (fun defs def_id =>
          assoc_update defs def_id (fun d =>
            { d with uses := d.uses + 1,
                     non_propagatable_uses :=
                       d.non_propagatable_uses + (if propagatable then 0 else 1) }))
        defs)
    definitions

/-- The per-statement step of `collect_def_info`: update usages, then
record a definition for an assignment to a variable.  The
`assert!(op.is_none())` at this spot is hoisted into `check_plain_assigns`
below, which visits exactly the same statements. -/
def cdi_stmt (bb_index stmt_idx : Nat) (stmt : Statement)
    (st : List (Location × Definition) × List (Ident × List Location) × Bool) :
    List (Location × Definition) × List (Ident × List Location) × Bool :=
  let (definitions, relevant, changed) := st
  let definitions := update_usages stmt relevant definitions
  match stmt with
  | .Expr (.Assign (.Variable var _) _ rhs) =>
    let def_id : Location := (bb_index, stmt_idx)
    let (definitions, changed) :=
      match assoc definitions def_id with
      | some _ => (definitions, changed)
      | none =>
        (definitions ++ [(def_id,
          ({ id := def_id, ident := var, value := rhs,
             relevant_defs := relevant, uses := 0,
             non_propagatable_uses := 0 } : Definition))],
         true)
    let definitions :=
      assoc_update definitions def_id (fun d => { d with relevant_defs := relevant })
    (definitions, assoc_insert relevant var [def_id], changed)
  | _ => (definitions, relevant, changed)

/-- Merge a block's outgoing `relevant` map into a successor's entry map
(the `target_relevant` loop of `collect_def_info`). -/
def merge_relevant (relevant : List (Ident × List Location))
    (target : List (Ident × List Location) × Bool) :
    List (Ident × List Location) × Bool :=
  relevant.foldl
    (fun (acc : List (Ident × List Location) × Bool) p =>
      let (tgt, changed) := acc
      match assoc tgt p.1 with
      | none => (tgt ++ [(p.1, p.2)], true)
      | some before =>
        if set_subset p.2 before then (tgt, changed)
        else (assoc_insert tgt p.1 (set_extend before p.2), true))
    target

/-- One full iteration of the `collect_def_info` fixed point over all
nodes. -/
def cdi_round (cfg : Cfg Statement Expr)
    (st : List (Location × Definition) × List (List (Ident × List Location))) :
    List (Location × Definition) × List (List (Ident × List Location)) × Bool :=
  (List.range cfg.nodes.length).foldl
    (fun (acc : List (Location × Definition) × List (List (Ident × List Location)) × Bool) v =>
      let (definitions, rob, changed) := acc
      let bb := cfg.nodes.getD v default
      let (definitions, relevant, changed) :=
        (bb.stmts.enum).foldl
          (fun st p => cdi_stmt v p.1 p.2 st)
          (definitions, (rob.getD v []), changed)
      let (rob, changed) :=
        (successors cfg.edges v).foldl
          (fun (acc : List (List (Ident × List Location)) × Bool) w =>
            let (rob, changed) := acc
            let (tgt, changed') := merge_relevant relevant (rob.getD w [], changed)
            (rob.set w tgt, changed'))
          (rob, changed)
      (definitions, rob, changed))
    (st.1, st.2, false)

/-- Reset use counters at the top of each `collect_def_info` iteration. -/
def reset_uses (definitions : List (Location × Definition)) :
    List (Location × Definition) :=
  definitions.map (fun p =>
    (p.1, { p.2 with uses := 0, non_propagatable_uses := 0 }))

/-- Iterate `collect_def_info` to its fixed point (fueled). -/
def cdi_iter (cfg : Cfg Statement Expr) :
    Nat → List (Location × Definition) × List (List (Ident × List Location)) →
    List (Location × Definition) × List (List (Ident × List Location))
  | 0, st => st
  | fuel + 1, st =>
    let (definitions, rob, changed) := cdi_round cfg (reset_uses st.1, st.2)
    if changed then cdi_iter cfg fuel (definitions, rob) else (definitions, rob)

/-- `collect_def_info`. -/
def collect_def_info (cfg : Cfg Statement Expr) : DefinitionInfo :=
  let total := (cfg.nodes.map (fun bb => bb.stmts.length)).sum
  let fuel := cfg.nodes.length * (total + 1) * (total + 1) + 2
  let (definitions, rob) :=
    cdi_iter cfg fuel ([], List.replicate cfg.nodes.length [])
  { definitions := definitions, relevant_on_bb_entry := rob }

mutual
/-- `PropagationVisitor::visit_expr`: replace a variable read whose single
reaching definition is in `defs` by that definition's value (without
revisiting the replacement), otherwise recurse into the children. -/
def prop_rewriteE (defs : List (Location × Definition))
    (relevant : List (Ident × List Location)) (fuel : Nat) (e : Expr) : Expr :=
  match fuel, e with
  | 0, e => e
  | fuel + 1, e =>
    let replace : Option Expr :=
      match e with
      | .Assignable (.Variable var _) =>
        match assoc relevant var with
        | none => none
        | some possible_definitions =>
          if h : possible_definitions.length = 1 then
            match assoc defs (possible_definitions.head (by
              intro hn; rw [hn] at h; simp at h)) with
            | some d => some d.value
            | none => none
          else none
      | _ => none
    match replace with
    | some r => r
    | none =>
      match e with
      | .Literal l => .Literal l
      | .Assignable a => .Assignable (prop_rewriteA defs relevant fuel a)
      | .UnaryOp op e => .UnaryOp op (prop_rewriteE defs relevant fuel e)
      | .BinaryOp op e₁ e₂ =>
        .BinaryOp op (prop_rewriteE defs relevant fuel e₁) (prop_rewriteE defs relevant fuel e₂)
      | .IfThenElse c t els =>
        .IfThenElse (prop_rewriteE defs relevant fuel c)
          (prop_rewriteE defs relevant fuel t) (prop_rewriteE defs relevant fuel els)
      | .Invoke this m cls args =>
        .Invoke (this.map (prop_rewriteE defs relevant fuel)) m cls
          (args.map (prop_rewriteE defs relevant fuel))
      | .Assign tgt op rhs =>
        .Assign (prop_rewriteA defs relevant fuel tgt) op (prop_rewriteE defs relevant fuel rhs)
      | .New cls args => .New cls (args.map (prop_rewriteE defs relevant fuel))
      | .This => .This
      | .Super => .Super

/-- `walk_assignable` under the propagation visitor. -/
def prop_rewriteA (defs : List (Location × Definition))
    (relevant : List (Ident × List Location)) (fuel : Nat) (a : Assignable) : Assignable :=
  match fuel, a with
  | 0, a => a
  | _, .Variable v n => .Variable v n
  | fuel + 1, .Field this cls fld =>
    .Field (this.map (prop_rewriteE defs relevant fuel)) cls fld
  | fuel + 1, .ArrayAccess arr idx =>
    .ArrayAccess (prop_rewriteE defs relevant fuel arr) (prop_rewriteE defs relevant fuel idx)
end

/-- `visit_statement` under the propagation visitor (`walk_statement`),
restricted to the statement forms occurring in CFG blocks. -/
def prop_rewriteS (defs : List (Location × Definition))
    (relevant : List (Ident × List Location)) (s : Statement) : Statement :=
  match s with
  | .Nop => .Nop
  | .Expr e => .Expr (prop_rewriteE defs relevant expr_fuel e)
  | .Return e => .Return (e.map (prop_rewriteE defs relevant expr_fuel))
  | other => other

/-- `is_propagatable`. -/
def is_propagatable (d : Definition) : Bool :=
  d.non_propagatable_uses = 0 && d.uses ≤ 1

/-- `propagate_in_definitions`: inline each propagatable definition into
the right-hand sides of all the others, in map-iteration order. -/
def propagate_in_definitions (definitions : List (Location × Definition)) :
    List (Location × Definition) :=
  let ids := definitions.map (fun p => p.1)
  ids.foldl
    (fun defs replace_id =>
      match assoc defs replace_id with
      | none => defs
      | some replace_def =>
        defs.map (fun p =>
          if p.1 = replace_id then p
          else
            (p.1, { p.2 with value :=
              (prop_rewriteE [(replace_def.id, replace_def)] p.2.relevant_defs
                expr_fuel p.2.value) })))
    definitions

/-- The per-node rewrite of `propagate_in_code`: rewrite each statement,
track definitions for the running `relevant` map, blank out consumed
definitions with `Nop`, and finally rewrite the terminator. -/
def propagate_in_code_bb (definitions : List (Location × Definition))
    (relevant0 : List (Ident × List Location)) (bb_index : Nat)
    (bb : BasicBlock Statement Expr) : BasicBlock Statement Expr :=
  let (stmts_rev, relevant) :=
    bb.stmts.enum.foldl
      (fun (acc : List Statement × List (Ident × List Location)) p =>
        let (stmts, relevant) := acc
        let stmt := prop_rewriteS definitions relevant p.2
        let relevant :=
          match stmt with
          | .Expr (.Assign (.Variable var _) _ _) =>
            assoc_insert relevant var [(bb_index, p.1)]
          | _ => relevant
        let stmt :=
          if (assoc definitions (bb_index, p.1)).isSome then Statement.Nop else stmt
        (stmts ++ [stmt], relevant))
      ([], relevant0)
  { stmts := stmts_rev,
    terminator := bb.terminator.map (prop_rewriteE definitions relevant expr_fuel) }

/-- `propagate_in_code`. -/
def propagate_in_code (cfg : Cfg Statement Expr)
    (definitions : List (Location × Definition))
    (relevant_on_bb_entry : List (List (Ident × List Location))) :
    List (BasicBlock Statement Expr) :=
  cfg.nodes.enum.map (fun p =>
    propagate_in_code_bb definitions (relevant_on_bb_entry.getD p.1 []) p.1 p.2)

/-- The panic of the propagation pass: `assert!(op.is_none())` on a
statement-level augmented assignment. -/
inductive PropErr where
  | augmentedAssign (block stmt : Nat)
  deriving Repr, DecidableEq

/-- The `assert!(op.is_none())` check of `collect_def_info` /
`propagate_in_code`, hoisted to a scan over exactly the statements those
loops visit (every top-level statement of every block, in order). -/
def check_plain_assigns (cfg : Cfg Statement Expr) : Except PropErr Unit :=
  (List.range cfg.nodes.length).foldlM
    (fun _ v =>
      ((cfg.nodes.getD v default).stmts.enum).foldlM
        (fun _ p =>
          match p.2 with
          | .Expr (.Assign _ (some _) _) => throw (PropErr.augmentedAssign v p.1)
          | _ => pure ())
        ())
    ()

/-- `propagate` (the body of `var_prop`): analysis, filter, inlining, code
rewrite. -/
def propagate (cfg : Cfg Statement Expr) : Except PropErr (Cfg Statement Expr) := do
  check_plain_assigns cfg
  let info := collect_def_info cfg
  let propagatable_definitions :=
    propagate_in_definitions (info.definitions.filter (fun p => is_propagatable p.2))
  pure { cfg with
         nodes := propagate_in_code cfg propagatable_definitions info.relevant_on_bb_entry }

/-! ### Control-flow structuring (`src/decompiler/passes/structure.rs`)

`BTreeSet<Label>` becomes a sorted duplicate-free `List Nat`,
`BTreeSet<Jump>` a lexicographically sorted list of pairs, and the graph
traversals are fueled. -/

/-- Sorted-set insert (`BTreeSet<Label>::insert`). -/
def bset_insert (s : List Nat) (x : Nat) : List Nat :=
  match s with
  | [] => [x]
  | y :: rest =>
    if x < y then x :: y :: rest
    else if x = y then y :: rest
    else y :: bset_insert rest x

/-- Lexicographic sorted-set insert (`BTreeSet<Jump>::insert`). -/
def jset_insert (s : List (Nat × Nat)) (x : Nat × Nat) : List (Nat × Nat) :=
  match s with
  | [] => [x]
  | y :: rest =>
    if x.1 < y.1 ∨ (x.1 = y.1 ∧ x.2 < y.2) then x :: y :: rest
    else if x = y then y :: rest
    else y :: jset_insert rest x

/-- Depth-first postorder over `succ`, restricted to `flt`, with an
explicit enter/exit stack (petgraph's `DfsPostOrder`); `visited` is shared
across roots. -/
def postorder_go (succ : Nat → List Nat) (flt : Nat → Bool) :
    Nat → List (Bool × Nat) → List Nat → List Nat → List Nat × List Nat
  | 0, _, visited, order => (visited, order)
  | _ + 1, [], visited, order => (visited, order)
  | fuel + 1, (isExit, v) :: rest, visited, order =>
    if isExit then postorder_go succ flt fuel rest visited (order ++ [v])
    else if ¬ flt v || visited.contains v then postorder_go succ flt fuel rest visited order
    else
      postorder_go succ flt fuel
        (((succ v).filter flt).map (fun w => (false, w)) ++ (true, v) :: rest)
        (visited ++ [v]) order

/-- Collect the filtered nodes reachable from `v` that are not yet
`visited` (one `Dfs::move_to` round of the second Kosaraju pass). -/
def scc_collect_go (succ : Nat → List Nat) (flt : Nat → Bool) :
    Nat → List Nat → List Nat → List Nat × List Nat
  | 0, _, visited => (visited, [])
  | _ + 1, [], visited => (visited, [])
  | fuel + 1, v :: stack, visited =>
    if ¬ flt v || visited.contains v then scc_collect_go succ flt fuel stack visited
    else
      let (visited', comp) :=
        scc_collect_go succ flt fuel (((succ v).filter flt) ++ stack) (visited ++ [v])
      (visited', v :: comp)

/-- `petgraph::algo::kosaraju_scc` on the node-filtered graph: postorder of
the reversed graph, then forward collection in reverse finish order.  The
components come out in postorder (reverse topological order), each sorted
ascending like the `BTreeSet` the source turns them into. -/
def kosaraju_scc (edges : List (Nat × Nat × Bool)) (filter : List Nat) :
    List (List Nat) :=
  let flt := fun v => filter.contains v
  let fuel := 2 * (edges.length + filter.length) + 4
  let (_, finish) := filter.foldl
    (fun (st : List Nat × List Nat) root =>
      postorder_go (predecessors edges) flt fuel [(false, root)] st.1 st.2)
    ([], [])
  let (_, sccs) := finish.reverse.foldl
    (fun (st : List Nat × List (List Nat)) root =>
      let (visited, comp) := scc_collect_go (successors edges) flt fuel [root] st.1
      (visited, if comp.isEmpty then st.2 else st.2 ++ [isort comp]))
    ([], [])
  sccs

/-- `compute_strongly_connected_components`: Kosaraju components reversed
into topological order. -/
def compute_strongly_connected_components (edges : List (Nat × Nat × Bool))
    (filter : List Nat) : List (List Nat) :=
  (kosaraju_scc edges filter).reverse

/-- A registered loop (`Loop` in `structure.rs`). -/
structure Loop where
  nodes : List Nat
  entry : Nat
  continue_edges : List (Nat × Nat)
  exits : List Nat
  break_point : Nat
  break_edges : List (Nat × Nat)
  deriving Repr, DecidableEq

instance : Inhabited Loop := ⟨⟨[], 0, [], [], 0, []⟩⟩

/-- Panics of the structuring pass, as error values. -/
inductive StructErr where
  | multipleEntryPoints (nodes entries : List Nat)
  | noEntryPoint (nodes : List Nat)
  | noBreakPoint (exits : List Nat)
  | stopNotPostdomNext (stop next : Nat)
  | stopNotPostdomBrk (stop brk : Nat)
  | stopNotPostdomJoin (stop join : Nat)
  | badSuccessorCount (block : Nat)
  | noSuccessor (block : Nat)
  | noJoin (block : Nat)
  | noTerminator (block : Nat)
  | outOfFuel
  deriving Repr, DecidableEq

/-- The loop registry of `Context` (its graph and dominator components are
passed separately). -/
structure StructCtx where
  loops : List Loop := []
  entry_to_loop_index : List (Nat × Nat) := []
  loop_breaks : List ((Nat × Nat) × Nat) := []
  deriving Repr, DecidableEq

/-- `is_scc_loop`: more than one node, or a single node with a
self-edge. -/
def is_scc_loop (edges : List (Nat × Nat × Bool)) (nodes : List Nat) : Bool :=
  match nodes with
  | [] => false
  | [node] => edges.any (fun e => e.1 = node ∧ e.2.1 = node)
  | _ => true

/-- `find_best_break_block`: nearest common postdominator of the exit
targets; the source `unwrap`s the `Option`, so `none` is an error. -/
def find_best_break_block (pdoms : Dominators) (exits : List Nat) :
    Except StructErr Nat :=
  match pdoms.get_common exits with
  | some b => pure b
  | none => throw (StructErr.noBreakPoint exits)

/-- `find_entries_and_exits`: entry points (predecessor outside the SCC),
exit targets (successor outside the SCC), continue edges (intra-SCC edges
into the entry), break point, and break edges.  The break-edge condition is
the source's: `ctx.dominators.is_for(entry_point, break_point)`, which does
not depend on the incoming edge being examined. -/
def find_entries_and_exits (edges : List (Nat × Nat × Bool))
    (doms pdoms : Dominators) (nodes : List Nat) : Except StructErr Loop := do
  let (entry_points, exit_points) :=
    nodes.foldl
      (fun (acc : List Nat × List Nat) node =>
        let acc :=
          (predecessors edges node).foldl
            (fun (acc : List Nat × List Nat) incoming =>
              if ¬ nodes.contains incoming then (bset_insert acc.1 node, acc.2) else acc)
            acc
        (successors edges node).foldl
          (fun (acc : List Nat × List Nat) outgoing =>
            if ¬ nodes.contains outgoing then (acc.1, bset_insert acc.2 outgoing) else acc)
          acc)
      ([], [])
  if entry_points.length > 1 then
    throw (StructErr.multipleEntryPoints nodes entry_points)
  else
    match entry_points.head? with
    | none => throw (StructErr.noEntryPoint nodes)
    | some entry_point => do
      let continue_edges :=
        (predecessors edges entry_point).foldl
          (fun s incoming =>
            if nodes.contains incoming then jset_insert s (incoming, entry_point) else s)
          []
      let break_point ← find_best_break_block pdoms exit_points
      let break_edges :=
        (predecessors edges break_point).foldl
          (fun s incoming =>
            if doms.is_for entry_point break_point then
              jset_insert s (incoming, break_point)
            else s)
          []
      pure { nodes := nodes, entry := entry_point, continue_edges := continue_edges,
             exits := exit_points, break_point := break_point,
             break_edges := break_edges }

/-- `Modelled from the spec:` the specification's break-edge rule — "all
edges into the break point whose source is dominated by the loop entry"
(the dominance test is applied to each edge's source). -/
def spec_break_edges (edges : List (Nat × Nat × Bool)) (doms : Dominators)
    (entry_point break_point : Nat) : List (Nat × Nat) :=
  (predecessors edges break_point).foldl
    (fun s incoming =>
      if doms.is_for entry_point incoming then
        jset_insert s (incoming, break_point)
      else s)
    []

/-- `store_loop_in_context`. -/
def store_loop_in_context (ctx : StructCtx) (lupe : Loop) : StructCtx :=
  let loop_index := ctx.loops.length
  { loops := ctx.loops ++ [lupe],
    entry_to_loop_index := ctx.entry_to_loop_index ++ [(lupe.entry, loop_index)],
    loop_breaks := ctx.loop_breaks ++ lupe.break_edges.map (fun e => (e, loop_index)) }

/-- `collect_loops`: discover loops outer-first over the node filter,
recursing into each loop with its entry removed. -/
def collect_loops_go (edges : List (Nat × Nat × Bool)) (doms pdoms : Dominators) :
    Nat → List Nat → StructCtx → Except StructErr StructCtx
  | 0, _, _ => throw StructErr.outOfFuel
  | fuel + 1, filter, ctx =>
    if filter.isEmpty then pure ctx
    else
      (compute_strongly_connected_components edges filter).foldlM
        (fun ctx nodes => do
          if is_scc_loop edges nodes then do
            let lupe ← find_entries_and_exits edges doms pdoms nodes
            let ctx := store_loop_in_context ctx lupe
            collect_loops_go edges doms pdoms fuel (nodes.filter (fun v => v ≠ lupe.entry)) ctx
          else
            pure ctx)
        ctx

/-- `collect_loops` entry point. -/
def collect_loops (cfg : Cfg Statement Expr) (doms pdoms : Dominators) :
    Except StructErr StructCtx :=
  collect_loops_go cfg.edges doms pdoms (cfg.nodes.length + 2)
    (List.range cfg.nodes.length) {}

/-- The intermediate structured tree (`Structured`). -/
inductive Structured where
  | BasicBlock (label : Nat)
  | If (cond : Nat) (thn els : List Structured)
  | Loop (id : Nat) (body : List Structured)
  | Break (id : Nat)
  | Continue (id : Nat)
  deriving Repr

/-- `loop_label`. -/
def loop_label (index : Nat) : Ident := "loop_" ++ toString index

mutual
/-- `handle_jump`: a jump to a loop entry becomes `Continue` (continue
edge) or a `while(true)` loop (outside entry); a registered break edge
becomes `Break`; anything else just flows to its target.  Returns the
emitted structured statements and the next cursor. -/
def handle_jump (cfg : Cfg Statement Expr) (pdoms : Dominators) (ctx : StructCtx) :
    Nat → (Nat × Nat) → Nat → Except StructErr (List Structured × Nat)
  | 0, _, _ => throw StructErr.outOfFuel
  | fuel + 1, jump, stop => do
    let next := jump.2
    if ¬ (pdoms.is_for stop next) then
      throw (StructErr.stopNotPostdomNext stop next)
    else
      match assoc ctx.entry_to_loop_index next with
      | some loop_index =>
        if ((ctx.loops.getD loop_index default).continue_edges).contains jump then
          pure ([Structured.Continue loop_index], stop)
        else do
          let brk := (ctx.loops.getD loop_index default).break_point
          if ¬ (pdoms.is_for stop brk) then
            throw (StructErr.stopNotPostdomBrk stop brk)
          else do
            let body ← structure_from_to cfg pdoms ctx fuel next brk
            pure ([Structured.Loop loop_index body], brk)
      | none =>
        match assoc ctx.loop_breaks jump with
        | some loop_index =>
          pure ([Structured.Break loop_index], (ctx.loops.getD loop_index default).break_point)
        | none => pure ([], next)

/-- `translate_block`: emit the block itself, then branch on its
terminator. -/
def translate_block (cfg : Cfg Statement Expr) (pdoms : Dominators) (ctx : StructCtx) :
    Nat → Nat → Nat → Except StructErr (List Structured × Nat)
  | 0, _, _ => throw StructErr.outOfFuel
  | fuel + 1, cur, stop => do
    let outgoing := (out_edges cfg.edges cur).foldl
      (fun m e => assoc_insert m e.1 e.2) ([] : List (Bool × Nat))
    let bb := cfg.nodes.getD cur default
    if bb.terminator.isSome then
      if outgoing.length ≠ 2 then throw (StructErr.badSuccessorCount cur)
      else
        match pdoms.get_immediate cur with
        | none => throw (StructErr.noJoin cur)
        | some join =>
          if ¬ (pdoms.is_for stop join) then
            throw (StructErr.stopNotPostdomJoin stop join)
          else do
            let (thn_pre, then_block) ←
              handle_jump cfg pdoms ctx fuel (cur, (assoc outgoing true).getD 0) stop
            let thn_rest ← structure_from_to cfg pdoms ctx fuel then_block join
            let (els_pre, else_block) ←
              handle_jump cfg pdoms ctx fuel (cur, (assoc outgoing false).getD 0) stop
            let els_rest ← structure_from_to cfg pdoms ctx fuel else_block join
            pure ([Structured.BasicBlock cur,
                   Structured.If cur (thn_pre ++ thn_rest) (els_pre ++ els_rest)], join)
    else
      if outgoing.length > 1 then throw (StructErr.badSuccessorCount cur)
      else
        match outgoing.head? with
        | none => throw (StructErr.noSuccessor cur)
        | some e => do
          let (js, lbl) ← handle_jump cfg pdoms ctx fuel (cur, e.2) stop
          pure (Structured.BasicBlock cur :: js, lbl)

/-- `structure_from_to`: translate blocks until the stop label or the exit
point is reached. -/
def structure_from_to (cfg : Cfg Statement Expr) (pdoms : Dominators) (ctx : StructCtx) :
    Nat → Nat → Nat → Except StructErr (List Structured)
  | 0, _, _ => throw StructErr.outOfFuel
  | fuel + 1, cur, stop =>
    if cur = stop ∨ cur = cfg.exit_point then pure []
    else do
      let (part, cur') ← translate_block cfg pdoms ctx fuel cur stop
      let rest ← structure_from_to cfg pdoms ctx fuel cur' stop
      pure (part ++ rest)
end

/-- `structured_to_statement`: flatten the structured tree into statements,
cloning basic-block statements and unwrapping `If` terminators. -/
def structured_to_statement (cfg : Cfg Statement Expr) :
    Nat → List Structured → Except StructErr (List Statement)
  | 0, _ => throw StructErr.outOfFuel
  | fuel + 1, structured =>
    structured.foldlM
      (fun result stmt =>
        match stmt with
        | .BasicBlock label => pure (result ++ (cfg.nodes.getD label default).stmts)
        | .If cond thn els => do
          match (cfg.nodes.getD cond default).terminator with
          | none => throw (StructErr.noTerminator cond)
          | some c => do
            let thn' ← structured_to_statement cfg fuel thn
            let els' ← structured_to_statement cfg fuel els
            pure (result ++ [Statement.If c (Blk.mk [] thn') (some (Blk.mk [] els'))])
        | .Loop id body => do
          let body' ← structured_to_statement cfg fuel body
          pure (result ++ [Statement.While (some (loop_label id))
            (Expr.Literal (Literal.Boolean true)) (Blk.mk [] body') false])
        | .Break id => pure (result ++ [Statement.Break (some (loop_label id))])
        | .Continue id => pure (result ++ [Statement.Continue (some (loop_label id))]))
      []

/-- `cfg_to_structured`: build the context (dominators, postdominators,
loop registry) and run the emission driver from the entry point. -/
def cfg_to_structured (cfg : Cfg Statement Expr) : Except StructErr (List Structured) := do
  let doms := cfg.compute_dominators false
  let pdoms := cfg.compute_dominators true
  let ctx ← collect_loops cfg doms pdoms
  let fuel := (cfg.nodes.length + cfg.edges.length + 5) * (cfg.nodes.length + cfg.edges.length + 5)
  structure_from_to cfg pdoms ctx fuel cfg.entry_point cfg.exit_point

/-- `structure_cfg`: the whole structuring pass for one method body. -/
def structure_cfg (cfg : Cfg Statement Expr) : Except StructErr Blk := do
  let structured ← cfg_to_structured cfg
  let stmts ← structured_to_statement cfg
    ((cfg.nodes.length + cfg.edges.length + 5) * (cfg.nodes.length + cfg.edges.length + 5))
    structured
  pure (Blk.mk [] stmts)

/-! ### The constructor pass (`src/decompiler/passes/constructors.rs`) -/

/-- The panic of the constructor pass:
`assert!(match **expr { Expr::This => true, _ => false }, "constructor call
not on this!")`. -/
inductive CtorErr where
  | receiverNotThis
  deriving Repr, DecidableEq

/-- The receiver test of the assert (`match **expr { Expr::This => true,
_ => false }`). -/
def is_this_expr : Expr → Bool
  | .This => true
  | _ => false

/-- `ConstructorVisitor::visit_statement`: for a statement-level invocation
with an explicit receiver, assert the receiver is `This` (whatever the
method name), then rewrite `<init>` calls into `ThisCall`/`SuperCall` by
comparing the callee class with the enclosing class name. -/
def constructor_visit_statement (class_name : String) (stmt : Statement) :
    Except CtorErr Statement :=
  match stmt with
  | .Expr (.Invoke (some receiver) method_ref cls args) =>
    if is_this_expr receiver then
      if method_ref.name = "<init>" then
        if class_name = cls.name then pure (Statement.ThisCall args)
        else pure (Statement.SuperCall args)
      else pure stmt
    else throw CtorErr.receiverNotThis
  | _ => pure stmt

/-- `handle_constructors`, per statement list (`code.map` applies the
visitor to every statement of every basic block). -/
def handle_constructor_stmts (class_name : String) (stmts : List Statement) :
    Except CtorErr (List Statement) :=
  eMapM (constructor_visit_statement class_name) stmts

/-- Does a statement trip the receiver assert: a statement-level invocation
with an explicit receiver other than `This` (of any method name)? -/
def has_receiver_not_this (stmt : Statement) : Bool :=
  match stmt with
  | .Expr (.Invoke (some receiver) _ _ _) => ¬ is_this_expr receiver
  | _ => false

/-- `Modelled from the spec:` the failure condition the specification
states for the constructor pass — "It is an error if the receiver of such
an `<init>` call is not `This`", i.e. only `<init>` invocations with a
non-`This` receiver are errors. -/
def spec_init_receiver_not_this (stmt : Statement) : Bool :=
  match stmt with
  | .Expr (.Invoke (some receiver) method_ref _ _) =>
    method_ref.name = "<init>" && ¬ is_this_expr receiver
  | _ => false

/-! ### Spec-modelled stack addressing and height instrumentation -/

/-- `Modelled from the spec:` "`peek(i)` (for `LValue::Stack(−i)`) →
returns `top − i`": an instruction field `object_stack_index = −i`
addresses the slot `top − i`, i.e. `top + object_stack_index`.  This also
matches the source's own `StackVarId` doc comment ("stack[-1] is the
top"). -/
def spec_peek (top object_stack_index : Int) : Int :=
  top + object_stack_index

/-- The symbolic stack height after each instruction of a straight-line
sequence, derived from `execute`. -/
def execute_heights (s : Int) (instrs : List Instruction) (md : Metadata) :
    Except LiftErr (List Int) := do
  let r ← instrs.foldlM
    (fun (acc : List Int × Int) inst => do
      let (_, s') ← execute acc.2 inst md
      pure (acc.1 ++ [s'], s'))
    (([] : List Int), s)
  pure r.1

/-! ### The pipeline (`decompile` in `src/decompiler/decompile.rs`),
per method body -/

/-- An error anywhere in the pipeline. -/
inductive PipelineErr where
  | cfg (e : CfgErr)
  | lift (e : LiftErr)
  | prop (e : PropErr)
  | struc (e : StructErr)
  deriving Repr, DecidableEq

/-- The per-method pipeline: CFG build, stack-to-variable lifting, variable
propagation, structuring. -/
def decompile_method (code : Code) (md : Metadata) : Except PipelineErr Blk := do
  let cfg ← (build_cfg code).mapError PipelineErr.cfg
  let lifted ← (transform cfg md).mapError PipelineErr.lift
  let propagated ← (propagate lifted).mapError PipelineErr.prop
  (structure_cfg propagated).mapError PipelineErr.struc

/-! ### Concrete inputs used by the theorems -/

/-- The pure binary-operation method of the round-trip scenario:
`Load Li; Load Lj; <binop>; Store Lk` (no `Return`). -/
def binop_code (i j k : Nat) (op : BinaryOp) : Code :=
  { instructions := [
      (0, .Load (.LValue (.Local i))),
      (1, .Load (.LValue (.Local j))),
      (2, .Arithm (.BinaryOp op)),
      (3, .Store (.Local k))] }

/-- The CFG `build_cfg` produces for `binop_code`: the single real block 0
whose fall-through edge targets the synthetic entry block 1. -/
def binop_cfg0 (i j k : Nat) (op : BinaryOp) : Cfg Instruction JumpCondition :=
  { nodes := [
      { stmts := [.Load (.LValue (.Local i)), .Load (.LValue (.Local j)),
                  .Arithm (.BinaryOp op), .Store (.Local k)],
        terminator := none },
      {}, {}],
    edges := [(0, 1, false), (1, 0, false)],
    entry_point := 1, exit_point := 2 }

/-- The lifting of `binop_cfg0`. -/
def binop_lifted (i j k : Nat) (op : BinaryOp) : Cfg Statement Expr :=
  { nodes := [
      { stmts := [
          .Expr (.Assign (.Variable "stack_0" 0) none
            (.Assignable (.Variable (local_name i) 0))),
          .Expr (.Assign (.Variable "stack_1" 0) none
            (.Assignable (.Variable (local_name j) 0))),
          .Expr (.Assign (.Variable "stack_0" 0) none
            (.BinaryOp (convert_bin_op op) (mk_variable "stack_0") (mk_variable "stack_1"))),
          .Expr (.Assign (.Variable (local_name k) 0) none (mk_variable "stack_0"))],
        terminator := none },
      {}, {}],
    edges := [(0, 1, false), (1, 0, false)],
    entry_point := 1, exit_point := 2 }

/-- The node list `propagate` rebuilds for `binop_lifted` (the statements
are irrelevant to the structuring failure; only the node count is). -/
def binop_propd (i j k : Nat) (op : BinaryOp) : List (BasicBlock Statement Expr) :=
  let info := collect_def_info (binop_lifted i j k op)
  let propagatable_definitions :=
    propagate_in_definitions (info.definitions.filter (fun p => is_propagatable p.2))
  propagate_in_code (binop_lifted i j k op) propagatable_definitions info.relevant_on_bb_entry

/-- A method that is a single unconditional jump over a `return`. -/
def goto_code : Code :=
  { instructions := [
      (0, .Jump { address := 3, condition := none }),
      (3, .Return none)] }

/-- The CFG `build_cfg` produces for `goto_code`. -/
def goto_cfg : Cfg Instruction JumpCondition :=
  { nodes := [ { stmts := [], terminator := none },
               { stmts := [.Return none], terminator := none },
               { stmts := [], terminator := none },
               { stmts := [], terminator := none } ],
    edges := [(0, 1, true), (2, 0, false), (1, 3, false)],
    entry_point := 2, exit_point := 3 }

/-- `while (true) {}`: a single unconditional jump to itself. -/
def inf_loop_code : Code :=
  { instructions := [(0, .Jump { address := 0, condition := none })] }

/-- The decoded bytecode of `while (local_0 < 10) local_0++;` (test at the
bottom: `goto` over the increment, `if_icmplt` back to it). -/
def counted_loop_code : Code :=
  { instructions := [
      (0, .Jump { address := 6, condition := none }),
      (3, .Arithm (.IncreaseLocal 0 1)),
      (6, .Load (.LValue (.Local 0))),
      (7, .Load (.ConstantRef 1)),
      (9, .Jump { address := 3, condition := some (.Cmp .LT) }),
      (12, .Return none)] }

/-- Metadata for `counted_loop_code`: constant 1 is the literal 10. -/
def counted_loop_md : Metadata := { literals := [(1, .Integer 10)] }

/-- A method whose stack is not empty at its `Return`:
`Load L0; Load L0; Return(Some)`. -/
def tall_return_code : Code :=
  { instructions := [
      (0, .Load (.LValue (.Local 0))),
      (1, .Load (.LValue (.Local 0))),
      (2, .Return (some ()))] }

/-- The instructions of the field-store scenario:
`Load(Local 0); Load(Literal 7); Store(InstanceField{object_stack_index:-2,
field_ref:F})`. -/
def field_store_instrs : List Instruction :=
  [ .Load (.LValue (.Local 0)),
    .Load (.Constant (.Integer 7)),
    .Store (.InstanceField (-2) 5)]

/-- Metadata for the field-store scenario: field reference 5 resolves to
field `count` of class `X` (class reference 7). -/
def field_store_md : Metadata :=
  { field_refs := [(5, { class_ref := 7, name := "count", typ := .Int })],
    class_refs := [(7, { name := "X" })] }

/-- A CFG whose loop `{1, 2}` (entry 1) breaks to a block 3 that is also
reachable around the loop: 4 = entry, 0 branches to the loop head 1 or
directly to 3, 1 branches to 2 (stay) or 3 (leave), 2 jumps back to 1,
3 flows to the exit 5.  The loop entry 1 does not dominate the break
point 3. -/
def bypass_loop_cfg : Cfg Statement Expr :=
  { nodes := [
      { stmts := [], terminator := some (.Literal (.Boolean true)) },
      { stmts := [], terminator := some (.Literal (.Boolean true)) },
      { stmts := [], terminator := none },
      { stmts := [], terminator := none },
      { stmts := [], terminator := none },
      { stmts := [], terminator := none }],
    edges := [(4, 0, false), (0, 1, true), (0, 3, false), (1, 2, true),
              (1, 3, false), (2, 1, true), (3, 5, false)],
    entry_point := 4, exit_point := 5 }

/-- A lifted CFG with a join-point disagreement: block 0 pushes one value
and branches; the `true` arm (block 1) pushes another value while the
`false` arm (block 2) pushes nothing; both meet at block 3. -/
def mismatch_cfg : Cfg Instruction JumpCondition :=
  { nodes := [
      { stmts := [.Load (.LValue (.Local 0))], terminator := some (.CmpZero .EQ) },
      { stmts := [.Load (.LValue (.Local 0))], terminator := none },
      { stmts := [], terminator := none },
      { stmts := [], terminator := none }],
    edges := [(0, 1, true), (0, 2, false), (1, 3, false), (2, 3, false)],
    entry_point := 0, exit_point := 3 }

/-- A lifted CFG where the layouts agree at every join: a block that pushes
a constant and stores it, flowing into an empty exit block. -/
def c2ok_cfg : Cfg Instruction JumpCondition :=
  { nodes := [
      { stmts := [.Load (.Constant (.Integer 1)), .Store (.Local 0)], terminator := none },
      { stmts := [], terminator := none }],
    edges := [(0, 1, false)],
    entry_point := 0, exit_point := 1 }

/-- `Except.isOk` on a success. -/
@[simp] theorem except_isOk_ok {eps alpha : Type} (x : alpha) :
    (Except.ok x : Except eps alpha).isOk = true := rfl

/-- `Except.isOk` on an error. -/
@[simp] theorem except_isOk_error {eps alpha : Type} (e : eps) :
    (Except.error e : Except eps alpha).isOk = false := rfl

/-- Bind on a success. -/
@[simp] theorem except_bind_ok {eps alpha beta : Type} (x : alpha)
    (g : alpha → Except eps beta) : (Except.ok x >>= g) = g x := rfl

/-- Bind on an error. -/
@[simp] theorem except_bind_error {eps alpha beta : Type} (e : eps)
    (g : alpha → Except eps beta) :
    ((Except.error e : Except eps alpha) >>= g) = Except.error e := rfl

/-- Map on a success. -/
@[simp] theorem except_fmap_ok {eps alpha beta : Type} (f : alpha → beta) (x : alpha) :
    (f <$> (Except.ok x : Except eps alpha)) = Except.ok (f x) := rfl

/-- Map on an error. -/
@[simp] theorem except_fmap_error {eps alpha beta : Type} (f : alpha → beta) (e : eps) :
    (f <$> (Except.error e : Except eps alpha)) = Except.error e := rfl

/-! ### C7: decoding of the reference-comparison opcodes -/

/-- C7: the claim says `decode_instruction` maps opcodes `0xa5`/`0xa6` to a
conditional `Jump` with `CmpRef` and the `Ordering` indexed from the
range's own base (`0xa5 → EQ`, `0xa6 → NE`).  The code instead computes
`Ordering::from_u8(opcode - 0x9f)`, i.e. `from_u8 6` / `from_u8 7`, both of
which hit the `unreachable!()` arm, so decoding either opcode panics.  The
spec-modelled decoder shows the intended result at the failing input
(opcode `0xa5`, pc 10, offset 5). -/
theorem c7_cmp_ref_decoding_panics :
    (∀ pc b1 b2 rest, decode_jump 0xa5 pc (b1 :: b2 :: rest) = none) ∧
    (∀ pc b1 b2 rest, decode_jump 0xa6 pc (b1 :: b2 :: rest) = none) ∧
    Ordering.from_u8 (0xa5 - 0x9f) = none ∧
    Ordering.from_u8 (0xa6 - 0x9f) = none ∧
    spec_decode_cmp_ref 0xa5 10 [0, 5] =
      some { address := 15, condition := some (.CmpRef .EQ) } ∧
    spec_decode_cmp_ref 0xa6 10 [0, 5] =
      some { address := 15, condition := some (.CmpRef .NE) } := by
  refine ⟨fun pc b1 b2 rest => ?_, fun pc b1 b2 rest => ?_, rfl, rfl, by decide, by decide⟩
  · rfl
  · rfl

/-! ### C10: a loop without exit targets aborts structuring -/

/-- C10: a loop SCC with no exit targets aborts the structuring pass:
`Dominators::get_common` returns `None` for the empty exit-target list and
`find_best_break_block` unwraps it, so a `while (true) {}` method is
rejected rather than structured. -/
theorem c10_no_exit_loop_rejected :
    (∀ d : Dominators, d.get_common [] = none) ∧
    (∀ pdoms : Dominators, find_best_break_block pdoms [] =
      .error (StructErr.noBreakPoint [])) ∧
    decompile_method inf_loop_code {} =
      .error (.struc (StructErr.noBreakPoint [])) := by
  exact ⟨fun d => rfl, fun pdoms => rfl, by rfl⟩

/-! ### C4: the counted loop dies in variable propagation -/

/-- C4: the claim says the counted-loop bytecode structures into
`while_0: while (true) {...}`.  In the code, the lifter emits the augmented
assignment `local_0 += 1` for `iinc`, and `collect_def_info` in the
variable-propagation pass runs `assert!(op.is_none())` on every
statement-level assignment, so the pipeline panics there and never reaches
structuring (block 1, statement 0 is the offending assignment).  Even the
label the claim expects is wrong: `loop_label` produces `loop_0`, not
`while_0`. -/
theorem c4_counted_loop_panics_in_var_prop :
    decompile_method counted_loop_code counted_loop_md =
      .error (.prop (PropErr.augmentedAssign 1 0)) ∧
    ((build_cfg counted_loop_code).map (fun cfg =>
        (transform cfg counted_loop_md).map (fun lifted =>
          (lifted.nodes.getD 1 default).stmts))) =
      .ok (.ok [Statement.Expr (.Assign (.Variable "local_0" 0) (some .Add)
            (.Literal (.Integer 1)))]) ∧
    loop_label 0 = "loop_0" := by
  exact ⟨by rfl, by rfl, rfl⟩

/-! ### C8: instance-field stores address the wrong stack slot -/

/-- C8: the claim (and the spec) resolve `InstanceField{object_stack_index
= −i}` via `peek` to slot `top − i`, so the field-store scenario should
assign `7` to a field of the object in slot 0.  `StackLayout::get` computes
`self.0 - i` — a sign slip against the source's own `StackVarId` doc
comment ("stack[-1] is the top") — so at height 2 the object operand
resolves to slot `2 - (-2) = 4`, a slot that does not exist, and the value
stored is `stack_0` rather than `stack_1`; the lifted statement is
`stack_4.count = stack_0`. -/
theorem c8_field_store_wrong_slot :
    execute_block 0 { stmts := field_store_instrs } field_store_md =
      .ok ({ stmts := [
               .Expr (.Assign (.Variable "stack_0" 0) none
                 (.Assignable (.Variable "local_0" 0))),
               .Expr (.Assign (.Variable "stack_1" 0) none (.Literal (.Integer 7))),
               .Expr (.Assign (.Field (some (mk_variable "stack_4"))
                   (ClassRef.mk "X") (FieldRef.mk 7 "count" .Int)) none
                 (.Assignable (.Variable "stack_0" 0)))],
             terminator := none }, 0) ∧
    StackLayout.get 2 (-2) = 4 ∧
    spec_peek 2 (-2) = 0 ∧
    (4 : Int) ≠ 0 := by
  exact ⟨by rfl, by rfl, by rfl, by decide⟩

/-! ### C3: edges of blocks ending in an unconditional jump -/

/-- Helper: pointwise inversion of a successful `eMapM`. -/
theorem eMapM_ok_get {eps alpha beta : Type} (f : alpha → Except eps beta) :
    ∀ (l : List alpha) (r : List beta), eMapM f l = .ok r →
      r.length = l.length ∧
      ∀ i x, l.get? i = some x → ∃ y, f x = .ok y ∧ r.get? i = some y := by
  intro l
  induction l with
  | nil =>
    intro r h
    simp only [eMapM, pure, Except.pure, Except.ok.injEq] at h
    subst h
    exact ⟨rfl, fun i x hx => by simp at hx⟩
  | cons a as ih =>
    intro r h
    rw [eMapM] at h
    cases ha : f a with
    | error e => rw [ha] at h; simp at h
    | ok y =>
      rw [ha] at h
      cases has : eMapM f as with
      | error e => rw [has] at h; simp at h
      | ok ys =>
        rw [has] at h
        simp only [except_bind_ok, except_fmap_ok, pure, Except.pure, Except.ok.injEq] at h
        subst h
        obtain ⟨hlen, hget⟩ := ih ys has
        refine ⟨by simp [hlen], fun i x hx => ?_⟩
        cases i with
        | zero =>
          simp only [List.get?] at hx
          cases hx
          exact ⟨y, ha, rfl⟩
        | succ n =>
          simp only [List.get?] at hx ⊢
          exact hget n x hx

/-- Helper: every edge emitted by `block_result` for block `id` has
source `id`. -/
theorem block_result_src (ptb : List (Nat × Nat)) (id : Nat)
    (bl : List (Nat × Instruction))
    (r : BasicBlock Instruction JumpCondition × List (Nat × Nat × Bool))
    (h : block_result ptb id bl = .ok r) :
    ∀ e ∈ r.2, e.1 = id := by
  rw [block_result] at h
  cases hl : bl.getLast? with
  | none => rw [hl] at h; simp [throw, throwThe, MonadExceptOf.throw] at h
  | some p =>
    rw [hl] at h
    obtain ⟨pc, last⟩ := p
    cases last with
    | Jump j =>
      cases ht : alookup ptb j.address with
      | none =>
        simp only [ht, throw, throwThe, MonadExceptOf.throw, except_bind_error] at h
        cases h
      | some t =>
        simp only [ht, except_bind_ok, pure, Except.pure, Except.ok.injEq] at h
        subst h
        intro e he
        by_cases hc : j.condition.isSome
        · simp only [hc, if_true, List.mem_append, List.mem_singleton, List.mem_cons,
            List.not_mem_nil, or_false] at he
          rcases he with he | he <;> simp [he]
        · simp only [hc, if_false, Bool.false_eq_true, List.nil_append,
            List.mem_singleton] at he
          simp [he]
    | Return v =>
      simp only [pure, Except.pure, Except.ok.injEq] at h
      subst h
      intro e he
      simp at he
    | Nop =>
      simp only [pure, Except.pure, Except.ok.injEq] at h
      subst h
      intro e he
      simp at he
      simp [he]
    | Load rv =>
      simp only [pure, Except.pure, Except.ok.injEq] at h
      subst h; intro e he; simp at he; simp [he]
    | Store lv =>
      simp only [pure, Except.pure, Except.ok.injEq] at h
      subst h; intro e he; simp at he; simp [he]
    | Arithm a =>
      simp only [pure, Except.pure, Except.ok.injEq] at h
      subst h; intro e he; simp at he; simp [he]
    | Invoke iv =>
      simp only [pure, Except.pure, Except.ok.injEq] at h
      subst h; intro e he; simp at he; simp [he]
    | Throw =>
      simp only [pure, Except.pure, Except.ok.injEq] at h
      subst h; intro e he; simp at he; simp [he]
    | TypeConv e => exact e.elim
    | ObjManip e => exact e.elim
    | StackManage e => exact e.elim
    | Synchronized e => exact e.elim

/-- Helper: filtering a flattened per-index edge list by a fixed source
keeps exactly that index\'s own edges. -/
theorem flatten_filter_src :
    ∀ (rs : List (List (Nat × Nat × Bool))) (base id : Nat)
      (y : List (Nat × Nat × Bool)),
      (∀ j z, rs.get? j = some z → ∀ e ∈ z, e.1 = base + j) →
      rs.get? id = some y →
      rs.flatten.filter (fun e => e.1 = base + id) = y := by
  intro rs
  induction rs with
  | nil => intro base id y _ hy; simp at hy
  | cons hd tl ih =>
    intro base id y hall hy
    cases id with
    | zero =>
      simp only [List.get?] at hy
      cases hy
      have hhd : ∀ e ∈ hd, e.1 = base + 0 := hall 0 hd rfl
      have htl : ∀ e ∈ tl.flatten, (decide (e.1 = base + 0)) = false := by
        intro e he
        rcases List.mem_flatten.mp he with ⟨z, hz, hez⟩
        rcases List.mem_iff_get?.mp hz with ⟨j, hj⟩
        have := hall (j + 1) z hj e hez
        simp [this]
      simp only [List.flatten_cons, List.filter_append]
      rw [List.filter_eq_self.mpr (fun e he => by simp [hhd e he]),
          List.filter_eq_nil_iff.mpr (fun e he => by simpa using htl e he)]
      simp
    | succ n =>
      simp only [List.get?] at hy
      have hhd : ∀ e ∈ hd, (decide (e.1 = base + (n + 1))) = false := by
        intro e he
        have := hall 0 hd rfl e he
        simp [this]
      have htl : ∀ j z, tl.get? j = some z → ∀ e ∈ z, e.1 = (base + 1) + j := by
        intro j z hj e hez
        have := hall (j + 1) z hj e hez
        omega
      simp only [List.flatten_cons, List.filter_append]
      rw [List.filter_eq_nil_iff.mpr (fun e he => by simpa using hhd e he)]
      have := ih (base + 1) n y htl hy
      rw [show base + (n + 1) = (base + 1) + n from by omega]
      simpa using this

/-- C3 counterexample: on `goto_code`, the unconditional-jump block 0 gets
exactly one outgoing edge to its target block — but its boolean label is
`true`, not `false` (the fall-through and synthetic edges carry `false`). -/
theorem c3_goto_edge_counterexample :
    (build_cfg goto_code).map (fun cfg => cfg.edges) =
      .ok [(0, 1, true), (2, 0, false), (1, 3, false)] ∧
    (build_cfg goto_code).map (fun cfg => cfg.edges.filter (fun e => e.1 = 0)) =
      .ok [(0, 1, true)] := by
  exact ⟨by rfl, by rfl⟩

/-- C3 amended: in the CFG builder, a basic block ending in an
unconditional jump (`condition = None`) gets exactly one outgoing edge, to
the block starting at the jump\'s target address, and that edge\'s boolean
label is `true` (fall-through edges and the synthetic entry/exit edges
carry `false`); the jump instruction itself is dropped from the block. -/
theorem c3_unconditional_jump_edge
    (code : Code) (cfg : Cfg Instruction JumpCondition)
    (starts : List Nat) (ptbm : List (Nat × Nat))
    (id : Nat) (bl : List (Nat × Instruction)) (pc a tgt : Nat)
    (h1 : build_cfg code = .ok cfg)
    (h2 : bb_starts code.instructions = .ok starts)
    (h3 : pc_to_bb_id code.instructions starts = .ok ptbm)
    (h4 : (split_blocks code.instructions starts).get? id = some bl)
    (h5 : bl.getLast? = some (pc, .Jump { address := a, condition := none }))
    (h6 : alookup ptbm a = some tgt) :
    cfg.edges.filter (fun e => e.1 = id) = [(id, tgt, true)] ∧
    cfg.nodes.get? id =
      some { stmts := bl.dropLast.map (fun p => p.2), terminator := none } := by
  rw [build_cfg, h2, except_bind_ok, h3, except_bind_ok] at h1
  set blocks := split_blocks code.instructions starts with hblocks
  cases hres : eMapM (fun p => block_result ptbm p.1 p.2) blocks.enum with
  | error e => rw [hres] at h1; simp at h1
  | ok results =>
    rw [hres] at h1
    simp only [except_bind_ok, pure, Except.pure, Except.ok.injEq] at h1
    obtain ⟨hlen, hget⟩ := eMapM_ok_get _ _ _ hres
    have hlen2 : results.length = blocks.length := by
      rw [hlen, List.enum_length]
    have hid_lt : id < blocks.length := by
      rcases List.get?_eq_some.mp h4 with ⟨hlt, _⟩
      exact hlt
    have henum : blocks.enum.get? id = some (id, bl) := by
      rw [List.get?_enum, h4]; rfl
    obtain ⟨y, hy, hyr⟩ := hget id (id, bl) henum
    have hbr : block_result ptbm id bl =
        .ok ({ stmts := bl.dropLast.map (fun p => p.2), terminator := none },
             [(id, tgt, true)]) := by
      rw [block_result, h5]
      simp [h6, pure, Except.pure]
    rw [hbr] at hy
    cases hy
    -- the per-index source property of the flattened edge list
    have hsrc : ∀ j z, (results.map (fun r => r.2)).get? j = some z →
        ∀ e ∈ z, e.1 = 0 + j := by
      intro j z hz
      rw [List.get?_map] at hz
      cases hzj : results.get? j with
      | none => rw [hzj] at hz; cases hz
      | some yj =>
        rw [hzj] at hz
        cases hz
        have hj_lt : j < blocks.enum.length := by
          rcases List.get?_eq_some.mp hzj with ⟨hlt, _⟩
          rw [hlen] at hlt
          exact hlt
        cases hbj : blocks.get? j with
        | none =>
          rw [List.get?_eq_none] at hbj
          rw [List.enum_length] at hj_lt
          omega
        | some blj =>
          have henumj : blocks.enum.get? j = some (j, blj) := by
            rw [List.get?_enum, hbj]; rfl
          obtain ⟨yj2, hyj, hyjr⟩ := hget j (j, blj) henumj
          rw [hzj] at hyjr
          cases hyjr
          intro e he
          have := block_result_src ptbm j blj _ hyj e he
          omega
    have hfil : ((results.map (fun r => r.2)).flatten).filter
        (fun e => e.1 = id) = [(id, tgt, true)] := by
      have hg2 : (results.map (fun r => r.2)).get? id = some [(id, tgt, true)] := by
        rw [List.get?_map, hyr]; rfl
      have := flatten_filter_src (results.map (fun r => r.2)) 0 id _ hsrc hg2
      simpa using this
    have hmem : (id, tgt, true) ∈ (results.map (fun r => r.2)).flatten := by
      have hpair := List.get?_mem hyr
      have hl := List.mem_map_of_mem (fun r => r.2) hpair
      exact List.mem_flatten.mpr ⟨_, hl, by simp⟩
    subst h1
    have hclose : ∀ v ∈ outdegree_zero ((results.map (fun r => r.1)).length + 2)
        ((results.map (fun r => r.2)).flatten ++
          [((results.map (fun r => r.1)).length, 0, false)])
        ((results.map (fun r => r.1)).length + 1), v ≠ id := by
      intro v hv
      simp only [outdegree_zero, List.mem_filter, List.mem_range] at hv
      obtain ⟨-, hv2⟩ := hv
      rw [Bool.and_eq_true] at hv2
      have hall := List.all_eq_true.mp hv2.1
      intro hvid
      subst hvid
      have := hall (v, tgt, true) (List.mem_append_left _ hmem)
      simp at this
    refine ⟨?_, ?_⟩
    · show (((results.map (fun r => r.2)).flatten ++ _) ++ _).filter _ = _
      rw [List.filter_append, List.filter_append, hfil]
      have h2nil : List.filter (fun e => decide (e.1 = id))
          [((results.map (fun r => r.1)).length, 0, false)] = [] := by
        simp only [List.filter_eq_nil_iff]
        intro e he
        rcases List.mem_singleton.mp he with rfl
        simp only [decide_eq_true_eq, List.length_map]
        omega
      have h3nil : List.filter (fun e => decide (e.1 = id))
          ((outdegree_zero ((results.map (fun r => r.1)).length + 2)
            ((results.map (fun r => r.2)).flatten ++
              [((results.map (fun r => r.1)).length, 0, false)])
            ((results.map (fun r => r.1)).length + 1)).map
            (fun v => (v, (results.map (fun r => r.1)).length + 1, false))) = [] := by
        simp only [List.filter_eq_nil_iff]
        intro e he
        rcases List.mem_map.mp he with ⟨v, hv, rfl⟩
        simp only [decide_eq_true_eq]
        exact hclose v hv
      rw [h2nil, h3nil]
      simp
    · show ((results.map (fun r => r.1)) ++ _).get? id = _
      rw [List.get?_append (by rw [List.length_map]; omega), List.get?_map, hyr]
      rfl

/-- Witness for `c3_unconditional_jump_edge`, instantiated on `goto_code`:
block 0 ends in `Jump{None, 3}`, its single outgoing edge is `(0, 1, true)`
and the jump is dropped. -/
theorem c3_unconditional_jump_edge_witness :
    goto_cfg.edges.filter (fun e => e.1 = 0) = [(0, 1, true)] ∧
    goto_cfg.nodes.get? 0 = some
      { stmts := List.map (fun p => p.2)
          (List.dropLast [((0 : Nat), Instruction.Jump { address := 3, condition := none })]),
        terminator := none } := by
  exact c3_unconditional_jump_edge goto_code goto_cfg
    [0, 1] [(0, 0), (3, 1)] 0 [(0, .Jump { address := 3, condition := none })] 0 3 1
    (by rfl) (by rfl) (by rfl) (by rfl) (by rfl) (by rfl)


/-! ### C5: break edges ignore the edge source -/

/-- C5: the claim (and the spec) define a loop's break edges as the edges
into the break point whose *source* is dominated by the loop entry.  The
code tests `dominators.is_for(entry_point, break_point)` — a condition that
ignores the edge being examined — so when the loop entry does not dominate
the break point the registered break-edge set is empty.  On
`bypass_loop_cfg`, loop discovery registers the single loop with entry 1
and break point 3 but no break edges, while the spec-modelled rule yields
the in-loop edge `(1, 3)`. -/
theorem c5_break_edges_ignore_source :
    (collect_loops bypass_loop_cfg
        (bypass_loop_cfg.compute_dominators false)
        (bypass_loop_cfg.compute_dominators true)).map
      (fun ctx => ctx.loops.map (fun l =>
        (l.nodes, l.entry, l.continue_edges, l.break_point, l.break_edges))) =
      .ok [([1, 2], 1, [(2, 1)], 3, [])] ∧
    spec_break_edges bypass_loop_cfg.edges
      (bypass_loop_cfg.compute_dominators false) 1 3 = [(1, 3)] := by
  exact ⟨by rfl, by rfl⟩

/-! ### C1: the round-trip method has no `Return` and is rejected -/

/-- C1 counterexample: on the claimed bytecode (with `i=0, j=1, op=Add,
k=2`) the pipeline emits nothing at all — the final block's fall-through
edge targets the synthetic entry block, the pair forms an SCC with no
entry points, and structuring aborts. -/
theorem c1_binop_roundtrip_counterexample :
    decompile_method (binop_code 0 1 2 .Add) {} =
      .error (.struc (StructErr.noEntryPoint [0, 1])) := by
  rfl

/-- Helper: any three-node CFG with the entry-cycle edge list of
`binop_code` is rejected by structuring with `noEntryPoint [0, 1]`,
whatever its statements are. -/
theorem structure_cfg_entry_cycle (a b c : BasicBlock Statement Expr) :
    structure_cfg { nodes := [a, b, c], edges := [(0, 1, false), (1, 0, false)],
                    entry_point := 1, exit_point := 2 } =
      .error (StructErr.noEntryPoint [0, 1]) := by
  rfl

set_option maxHeartbeats 1000000 in
/-- C1 amended: for every `i`, `j`, `k` and binary operation `op`, the
pipeline rejects the method `Load Li; Load Lj; <op>; Store Lk` during
structuring: the last block's fall-through edge points at the synthetic
entry block, forming the SCC `{0, entry}` with no entry points, so loop
discovery fails instead of emitting `local_k = local_i <op> local_j;`. -/
theorem c1_binop_method_rejected (i j k : Nat) (op : BinaryOp) :
    decompile_method (binop_code i j k op) {} =
      .error (.struc (StructErr.noEntryPoint [0, 1])) := by
  have hA : build_cfg (binop_code i j k op) = .ok (binop_cfg0 i j k op) := rfl
  have hB : transform (binop_cfg0 i j k op) {} = .ok (binop_lifted i j k op) := rfl
  have hC : propagate (binop_lifted i j k op) =
      .ok { nodes := binop_propd i j k op, edges := [(0, 1, false), (1, 0, false)],
            entry_point := 1, exit_point := 2 } := rfl
  have hLen : (binop_propd i j k op).length = 3 := rfl
  obtain ⟨a, b, c, habc⟩ := List.length_eq_three.mp hLen
  have hok : ∀ {α β : Type} (x : α)
      (g : α → Except PipelineErr β), (Except.ok x >>= g) = g x := fun _ _ => rfl
  unfold decompile_method
  rw [hA]
  show (Except.ok (binop_cfg0 i j k op) >>= _) = _
  rw [hok, hB]
  show (Except.ok (binop_lifted i j k op) >>= _) = _
  rw [hok, hC]
  show (Except.ok _ >>= _) = _
  rw [hok, habc]
  rw [structure_cfg_entry_cycle a b c]
  rfl

/-! ### C6: the constructor pass -/

/-- Helper: per statement, the constructor visitor succeeds exactly when
the statement is not a statement-level invocation with an explicit
receiver other than `This`. -/
theorem constructor_visit_ok_iff (cn : String) (s : Statement) :
    (constructor_visit_statement cn s).isOk = true ↔ has_receiver_not_this s = false := by
  cases s with
  | Expr e =>
    cases e with
    | Invoke receiver mr cls args =>
      cases receiver with
      | none => simp [constructor_visit_statement, has_receiver_not_this, pure, Except.pure]
      | some r =>
        by_cases hthis : is_this_expr r
        · simp only [constructor_visit_statement, hthis, if_true]
          split
          · split <;> simp [has_receiver_not_this, hthis, pure, Except.pure]
          · simp [has_receiver_not_this, hthis, pure, Except.pure]
        · simp [constructor_visit_statement, has_receiver_not_this, hthis,
            throw, throwThe, MonadExceptOf.throw]
    | _ => simp [constructor_visit_statement, has_receiver_not_this, pure, Except.pure]
  | _ => simp [constructor_visit_statement, has_receiver_not_this, pure, Except.pure]

/-- Helper: `eMapM` succeeds exactly when the function succeeds on every
element. -/
theorem eMapM_isOk_iff {eps alpha beta : Type} (f : alpha → Except eps beta) :
    ∀ l : List alpha, (eMapM f l).isOk = true ↔ ∀ x ∈ l, (f x).isOk = true := by
  intro l
  induction l with
  | nil => simp [eMapM, pure, Except.pure]
  | cons x xs ih =>
    cases hx : f x with
    | error e =>
      refine iff_of_false (by simp [eMapM, hx, Except.bind]) (fun hall => ?_)
      have := hall x (by simp)
      simp [hx] at this
    | ok y =>
      cases hxs : eMapM f xs with
      | error e =>
        refine iff_of_false (by simp [eMapM, hx, hxs, Except.bind]) (fun hall => ?_)
        have : (eMapM f xs).isOk = true :=
          ih.mpr (fun z hz => hall z (List.mem_cons_of_mem x hz))
        simp [hxs] at this
      | ok ys =>
        refine iff_of_true (by simp [eMapM, hx, hxs, Except.bind, pure, Except.pure])
          (fun z hz => ?_)
        rcases List.mem_cons.mp hz with h | h
        · subst h; simp [hx]
        · have := ih.mp (by simp [hxs])
          exact this z h

/-- C6 counterexample: a constructor containing the single statement
`null.foo()` — a statement-level invocation of a method that is *not*
`<init>` with a non-`This` receiver — makes the pass fail, although no
`<init>` invocation with a bad receiver exists, refuting the claim's
"fails exactly when some `<init>` invocation has a receiver other than
This". -/
theorem c6_receiver_assert_counterexample :
    handle_constructor_stmts "X"
      [.Expr (.Invoke (some (.Literal .NullReference))
        (MethodRef.mk 0 "foo" (Signature.mk [] .Void)) (ClassRef.mk "Y") [])] =
      .error CtorErr.receiverNotThis ∧
    spec_init_receiver_not_this
      (.Expr (.Invoke (some (.Literal .NullReference))
        (MethodRef.mk 0 "foo" (Signature.mk [] .Void)) (ClassRef.mk "Y") [])) = false := by
  exact ⟨rfl, rfl⟩

/-- C6 amended: inside a constructor the pass rewrites every
statement-level `Invoke(Some(This), MethodRef{name="<init>"}, ClassRef(c),
args)` into `ThisCall(args)` when `c` equals the enclosing class\'s name and
`SuperCall(args)` otherwise, and it fails exactly when some statement-level
invocation with an explicit receiver — of *any* method name — has a receiver
other than `This`. -/
theorem c6_constructor_rewrite :
    (∀ (cn : String) (mr : MethodRef) (cls : ClassRef) (args : List Expr),
        mr.name = "<init>" →
        constructor_visit_statement cn (.Expr (.Invoke (some .This) mr cls args)) =
          .ok (if cn = cls.name then .ThisCall args else .SuperCall args)) ∧
    (∀ (cn : String) (stmts : List Statement),
        (handle_constructor_stmts cn stmts).isOk = true ↔
          ∀ s ∈ stmts, has_receiver_not_this s = false) := by
  constructor
  · intro cn mr cls args hname
    simp only [constructor_visit_statement, is_this_expr, if_true, hname]
    split <;> simp_all [pure, Except.pure]
  · intro cn stmts
    rw [handle_constructor_stmts, eMapM_isOk_iff]
    exact ⟨fun h s hs => (constructor_visit_ok_iff cn s).mp (h s hs),
           fun h s hs => (constructor_visit_ok_iff cn s).mpr (h s hs)⟩

/-- Witness for `c6_constructor_rewrite`: applying both parts at concrete
inputs — a super-call rewrite and a single-return constructor body. -/
theorem c6_constructor_rewrite_witness :
    constructor_visit_statement "X"
      (.Expr (.Invoke (some .This) (MethodRef.mk 0 "<init>" (Signature.mk [] .Void))
        (ClassRef.mk "java.lang.Object") [])) =
      .ok (if "X" = "java.lang.Object" then .ThisCall [] else .SuperCall []) ∧
    ((handle_constructor_stmts "X" [Statement.Return none]).isOk = true ↔
      ∀ s ∈ [Statement.Return none], has_receiver_not_this s = false) := by
  exact ⟨c6_constructor_rewrite.1 "X" _ _ [] rfl, c6_constructor_rewrite.2 "X" _⟩

/-! ### C9: the stack height after a `Return` -/

/-- C9 counterexample: on `tall_return_code` the lifting succeeds although
the symbolic stack heights after the three instructions are `[1, 2, 1]` —
the height immediately after executing the `Return(Some)` is 1, not 0. -/
theorem c9_return_height_counterexample :
    ((build_cfg tall_return_code).map (fun cfg =>
      (transform cfg {}).isOk)) = .ok true ∧
    execute_heights 0
      [.Load (.LValue (.Local 0)), .Load (.LValue (.Local 0)), .Return (some ())] {} =
      .ok [1, 2, 1] ∧
    (1 : Int) ≠ 0 := by
  exact ⟨by rfl, by rfl, by decide⟩

/-- C9 amended: `Return(Some)` pops exactly one value (requiring height at
least 1, else the lift fails) and `Return(None)` leaves the height
unchanged; the lifter does not enforce that the resulting height is 0 — it
is 0 exactly when the height before the instruction was 1 (`Some`) or 0
(`None`). -/
theorem c9_return_pops_one (s : Int) (md : Metadata) :
    execute s (.Return none) md = .ok ([.Return none], s) ∧
    (1 ≤ s → execute s (.Return (some ())) md =
      .ok ([.Return (some (mk_variable (stack_name (s - 1))))], s - 1)) := by
  constructor
  · rfl
  · intro h
    simp only [execute, StackLayout.pop, if_neg (by omega : ¬ s - 1 < 0)]
    rfl

/-- Witness for `c9_return_pops_one` at height 2: the height after the
`Return(Some)` is 1. -/
theorem c9_return_pops_one_witness :
    (1 : Int) ≤ 2 ∧ execute 2 (.Return (some ())) {} =
      .ok ([.Return (some (mk_variable (stack_name 1)))], 1) := by
  refine ⟨by norm_num, ?_⟩
  have h := (c9_return_pops_one 2 {}).2 (by norm_num)
  simpa using h

/-! ### C2: the join-agreement check of the lifter -/

/-- Helper: `pop` never raises the join panic. -/
theorem pop_not_join (s : Int) (e : LiftErr) (h : StackLayout.pop s = .error e) :
    e.is_join = false := by
  rw [StackLayout.pop] at h
  split at h
  · cases h; rfl
  · cases h

/-- Helper: lifting an l-value never raises the join panic. -/
theorem make_lvalue_not_join (s : Int) (lv : LValue) (md : Metadata) (e : LiftErr)
    (h : make_stack_vars_lvalue s lv md = .error e) : e.is_join = false := by
  cases lv <;> rw [make_stack_vars_lvalue] at h
  · cases h
  · cases h
  · split at h
    · cases h; rfl
    · split at h
      · cases h; rfl
      · cases h
  · split at h
    · cases h; rfl
    · split at h
      · cases h; rfl
      · cases h

/-- Helper: lifting an r-value never raises the join panic. -/
theorem make_rvalue_not_join (s : Int) (rv : RValue) (md : Metadata) (e : LiftErr)
    (h : make_stack_vars_rvalue s rv md = .error e) : e.is_join = false := by
  cases rv <;> rw [make_stack_vars_rvalue] at h
  · cases h
  · split at h
    · cases h; rfl
    · cases h
  · cases hmk : make_stack_vars_lvalue s _ md with
    | error e' =>
      rw [hmk] at h
      simp only [except_bind_error] at h
      cases h
      exact make_lvalue_not_join _ _ _ _ hmk
    | ok r =>
      rw [hmk] at h
      simp only [except_bind_ok] at h
      cases h

/-- Helper: executing one instruction never raises the join panic. -/
theorem execute_not_join (s : Int) (inst : Instruction) (md : Metadata) (e : LiftErr)
    (h : execute s inst md = .error e) : e.is_join = false := by
  cases inst with
  | Nop => cases h
  | Load rv =>
    rw [execute] at h
    cases hmk : make_stack_vars_rvalue s rv md with
    | error e' =>
      rw [hmk] at h; simp only [except_bind_error] at h; cases h
      exact make_rvalue_not_join _ _ _ _ hmk
    | ok r => rw [hmk] at h; simp only [except_bind_ok] at h; cases h
  | Store lv =>
    rw [execute] at h
    cases hmk : make_stack_vars_lvalue s lv md with
    | error e' =>
      rw [hmk] at h; simp only [except_bind_error] at h; cases h
      exact make_lvalue_not_join _ _ _ _ hmk
    | ok r =>
      rw [hmk] at h
      simp only [except_bind_ok] at h
      cases hp : StackLayout.pop r.2 with
      | error e' =>
        rw [hp] at h; simp only [except_bind_error] at h; cases h
        exact pop_not_join _ _ hp
      | ok t => rw [hp] at h; simp only [except_bind_ok] at h; cases h
  | Arithm a =>
    cases a with
    | UnaryOp op =>
      rw [execute] at h
      cases hp : StackLayout.pop s with
      | error e' =>
        rw [hp] at h; simp only [except_bind_error] at h; cases h
        exact pop_not_join _ _ hp
      | ok t => rw [hp] at h; simp only [except_bind_ok] at h; cases h
    | BinaryOp op =>
      rw [execute] at h
      cases hp : StackLayout.pop s with
      | error e' =>
        rw [hp] at h; simp only [except_bind_error] at h; cases h
        exact pop_not_join _ _ hp
      | ok t =>
        rw [hp] at h; simp only [except_bind_ok] at h
        cases hp2 : StackLayout.pop t.2 with
        | error e' =>
          rw [hp2] at h; simp only [except_bind_error] at h; cases h
          exact pop_not_join _ _ hp2
        | ok t2 => rw [hp2] at h; simp only [except_bind_ok] at h; cases h
    | IncreaseLocal i d => cases h
  | TypeConv e' => exact e'.elim
  | ObjManip e' => exact e'.elim
  | StackManage e' => exact e'.elim
  | Jump j => cases h; rfl
  | Invoke iv =>
    obtain ⟨mi, kind⟩ := iv
    have hrec : ∀ (s₁ : Int) (e' : LiftErr), invoke_receiver kind s₁ = .error e' →
        e'.is_join = false := by
      intro s₁ e' h'
      cases kind <;> rw [invoke_receiver] at h'
      case Static => cases h'
      all_goals
        cases hp : StackLayout.pop s₁ with
        | error e2 =>
          rw [hp] at h'
          simp only [except_bind_error] at h'
          cases h'
          exact pop_not_join _ _ hp
        | ok t => rw [hp] at h'; simp only [except_bind_ok] at h'; cases h'
    rw [execute] at h
    cases hmr : alookup md.method_refs mi with
    | none => simp only [hmr] at h; cases h; rfl
    | some mr =>
      simp only [hmr] at h
      cases hcr : alookup md.class_refs mr.class_ref with
      | none => simp only [hcr] at h; cases h; rfl
      | some cr =>
        simp only [hcr] at h
        cases hrc : invoke_receiver kind (s - (mr.signature.parameters.length : Int)) with
        | error e' =>
          simp only [hrc, except_bind_error] at h
          cases h
          exact hrec _ _ hrc
        | ok t =>
          simp only [hrc, except_bind_ok] at h
          split at h <;> cases h
  | Throw => cases h; rfl
  | Return v =>
    cases v with
    | none => cases h
    | some u =>
      rw [execute] at h
      cases hp : StackLayout.pop s with
      | error e' =>
        rw [hp] at h; simp only [except_bind_error] at h; cases h
        exact pop_not_join _ _ hp
      | ok t => rw [hp] at h; simp only [except_bind_ok] at h; cases h
  | Synchronized e' => exact e'.elim

/-- Helper: lifting a terminator never raises the join panic. -/
theorem cond_not_join (s : Int) (c : JumpCondition) (e : LiftErr)
    (h : cond_to_expr s c = .error e) : e.is_join = false := by
  cases c <;> rw [cond_to_expr] at h
  case CmpZero ord =>
    cases hp : StackLayout.pop s with
    | error e' =>
      rw [hp] at h; simp only [except_bind_error] at h; cases h
      exact pop_not_join _ _ hp
    | ok t => rw [hp] at h; simp only [except_bind_ok] at h; cases h
  all_goals
    cases hp : StackLayout.pop s with
    | error e' =>
      rw [hp] at h
      simp only [except_bind_error] at h
      cases h
      exact pop_not_join _ _ hp
    | ok t =>
      rw [hp] at h
      simp only [except_bind_ok] at h
      cases hp2 : StackLayout.pop t.2 with
      | error e' =>
        rw [hp2] at h
        simp only [except_bind_error] at h
        cases h
        exact pop_not_join _ _ hp2
      | ok t2 => rw [hp2] at h; simp only [except_bind_ok] at h; cases h

/-- Helper: executing a straight-line sequence never raises the join
panic. -/
theorem execute_list_not_join (md : Metadata) :
    ∀ (instrs : List Instruction) (s : Int) (e : LiftErr),
      execute_list md s instrs = .error e → e.is_join = false := by
  intro instrs
  induction instrs with
  | nil => intro s e h; cases h
  | cons inst rest ih =>
    intro s e h
    rw [execute_list] at h
    cases hx : execute s inst md with
    | error e' =>
      rw [hx] at h; simp only [except_bind_error] at h; cases h
      exact execute_not_join _ _ _ _ hx
    | ok r =>
      rw [hx] at h
      simp only [except_bind_ok] at h
      cases hr : execute_list md r.2 rest with
      | error e' =>
        rw [hr] at h; simp only [except_bind_error] at h; cases h
        exact ih _ _ hr
      | ok r2 => rw [hr] at h; simp only [except_bind_ok] at h; cases h

/-- Helper: executing a whole block never raises the join panic. -/
theorem execute_block_not_join (s : Int) (bb : BasicBlock Instruction JumpCondition)
    (md : Metadata) (e : LiftErr) (h : execute_block s bb md = .error e) :
    e.is_join = false := by
  rw [execute_block] at h
  cases hl : execute_list md s bb.stmts with
  | error e' =>
    rw [hl] at h; simp only [except_bind_error] at h; cases h
    exact execute_list_not_join _ _ _ _ hl
  | ok r =>
    rw [hl] at h
    simp only [except_bind_ok] at h
    cases hterm : bb.terminator with
    | none => rw [hterm] at h; cases h
    | some c =>
      rw [hterm] at h
      cases hc : cond_to_expr r.2 c with
      | error e' =>
        simp only [hc, except_bind_error] at h
        cases h
        exact cond_not_join _ _ _ hc
      | ok r2 =>
        simp only [hc, except_bind_ok, pure, Except.pure] at h
        cases h

/-- Helper: a join panic raised by the successor check really is a
disagreement at one of the successors. -/
theorem record_succs_join (s₁ : Int) :
    ∀ (ws : List Nat) (sa : List (Option Int)) (w : Nat) (f ex : Int),
      record_succs s₁ ws sa = .error (.joinMismatch w f ex) →
      f ≠ ex ∧ w ∈ ws := by
  intro ws
  induction ws with
  | nil => intro sa w f ex h; cases h
  | cons w0 rest ih =>
    intro sa w f ex h
    rw [record_succs] at h
    split at h
    · rename_i recorded hrec
      split at h
      · obtain ⟨hne, hmem⟩ := ih _ _ _ _ h
        exact ⟨hne, List.mem_cons_of_mem _ hmem⟩
      · rename_i hne
        cases h
        exact ⟨hne, List.mem_cons_self _ _⟩
    · obtain ⟨hne, hmem⟩ := ih _ _ _ _ h
      exact ⟨hne, List.mem_cons_of_mem _ hmem⟩

/-- Helper: membership in the successor list corresponds to an edge. -/
theorem mem_successors (edges : List (Nat × Nat × Bool)) (v w : Nat) :
    w ∈ successors edges v ↔ ∃ b, (v, w, b) ∈ edges := by
  constructor
  · intro h
    rw [successors, List.mem_reverse] at h
    rcases List.mem_map.mp h with ⟨e, he, rfl⟩
    rcases List.mem_filter.mp he with ⟨hmem, hsrc⟩
    refine ⟨e.2.2, ?_⟩
    have : e = (v, e.2.1, e.2.2) := by
      have h1 : e.1 = v := by simpa using hsrc
      ext <;> simp [h1]
    rwa [this] at hmem
  · rintro ⟨b, hb⟩
    rw [successors, List.mem_reverse]
    exact List.mem_map.mpr ⟨(v, w, b), List.mem_filter.mpr ⟨hb, by simp⟩, rfl⟩

/-- Helper: the traversal loop reports a join panic only for a genuine
disagreement at the target of an existing edge. -/
theorem transform_go_join (cfg : Cfg Instruction JumpCondition) (md : Metadata) :
    ∀ (fuel : Nat) (st : LiftState) (w : Nat) (f ex : Int),
      transform_go cfg md fuel st = .error (.joinMismatch w f ex) →
      f ≠ ex ∧ ∃ v b, (v, w, b) ∈ cfg.edges := by
  intro fuel
  induction fuel with
  | zero => intro st w f ex h; cases h
  | succ n ih =>
    intro st w f ex h
    rw [transform_go] at h
    cases hstack : st.stack with
    | nil =>
      simp only [hstack, pure, Except.pure] at h
      cases h
    | cons v rest =>
      simp only [hstack] at h
      by_cases hvis : st.visited.contains v
      · rw [if_pos hvis] at h
        exact ih _ _ _ _ h
      · rw [if_neg hvis] at h
        cases hsa : st.stack_at.getD v none with
        | none => simp only [hsa] at h; cases h
        | some s =>
          simp only [hsa] at h
          cases hx : execute_block s (cfg.nodes.getD v default) md with
          | error e' =>
            simp only [hx, except_bind_error] at h
            cases h
            have := execute_block_not_join _ _ _ _ hx
            simp [LiftErr.is_join] at this
          | ok r =>
            simp only [hx, except_bind_ok] at h
            cases hr : record_succs r.2 (successors cfg.edges v) st.stack_at with
            | error e' =>
              simp only [hr, except_bind_error] at h
              cases h
              obtain ⟨hne, hmem⟩ := record_succs_join _ _ _ _ _ _ hr
              rcases (mem_successors cfg.edges v w).mp hmem with ⟨b, hb⟩
              exact ⟨hne, v, b, hb⟩
            | ok sa =>
              simp only [hr, except_bind_ok] at h
              exact ih _ _ _ _ h

/-- Helper: `get?` after `set`. -/
theorem get?_set_lemma {alpha : Type} (a : alpha) :
    ∀ (l : List alpha) (i j : Nat),
      (l.set i a).get? j = if i = j ∧ i < l.length then some a else l.get? j := by
  intro l
  induction l with
  | nil => intro i j; simp
  | cons x xs ih =>
    intro i j
    cases i with
    | zero =>
      cases j <;> simp [List.set]
    | succ n =>
      cases j with
      | zero => simp [List.set]
      | succ m =>
        simp only [List.set, List.get?, ih n m, List.length_cons]
        by_cases h : n = m ∧ n < xs.length
        · rw [if_pos h, if_pos ⟨by omega, by omega⟩]
        · rw [if_neg h, if_neg (by omega)]

/-- Helper: `getD` is `get?` with a fallback. -/
theorem getD_eq_get? {alpha : Type} (l : List alpha) (i : Nat) (d : alpha) :
    l.getD i d = (l.get? i).getD d := rfl

/-- Helper: the number of successors equals the outdegree. -/
theorem successors_length (edges : List (Nat × Nat × Bool)) (v : Nat) :
    (successors edges v).length = (edges.filter (fun e => e.1 = v)).length := by
  simp [successors]

/-- Helper: visiting a node removes exactly its outdegree from the
unvisited-edge count. -/
theorem unvisited_out_visit (visited : List Nat) (v : Nat) (hv : v ∉ visited) :
    ∀ edges : List (Nat × Nat × Bool),
      unvisited_out edges (visited ++ [v]) + (edges.filter (fun e => e.1 = v)).length =
        unvisited_out edges visited := by
  intro edges
  induction edges with
  | nil => rfl
  | cons e es ih =>
    simp only [unvisited_out, List.filter_cons] at ih ⊢
    by_cases h1 : e.1 = v
    · have c1 : (decide (e.1 ∉ visited ++ [v])) = false := by simp [h1]
      have c2 : (decide (e.1 = v)) = true := by simp [h1]
      have c3 : (decide (e.1 ∉ visited)) = true := by simp [h1, hv]
      rw [c1, c2, c3]
      simp only [Bool.false_eq_true, if_false, if_true, List.length_cons]
      omega
    · have c2 : (decide (e.1 = v)) = false := by simp [h1]
      rw [c2]
      by_cases h2 : e.1 ∈ visited
      · have c1 : (decide (e.1 ∉ visited ++ [v])) = false := by simp [h2]
        have c3 : (decide (e.1 ∉ visited)) = false := by simp [h2]
        rw [c1, c3]
        simp only [Bool.false_eq_true, if_false]
        omega
      · have c1 : (decide (e.1 ∉ visited ++ [v])) = true := by simp [h2, h1]
        have c3 : (decide (e.1 ∉ visited)) = true := by simp [h2]
        rw [c1, c3]
        simp only [Bool.false_eq_true, if_false, if_true, List.length_cons]
        omega

/-- Helper: recording a consistent layout at the successors cannot fail
and preserves the traversal invariant. -/
theorem record_succs_ok (L : Nat → Int) (s₁ : Int) :
    ∀ (ws : List Nat) (sa : List (Option Int)),
      (∀ x s, sa.getD x none = some s → s = L x) →
      (∀ w ∈ ws, L w = s₁) →
      ∃ sa', record_succs s₁ ws sa = .ok sa' ∧
        (∀ x s, sa'.getD x none = some s → s = L x) ∧
        sa'.length = sa.length ∧
        (∀ x, (sa.getD x none).isSome = true → (sa'.getD x none).isSome = true) ∧
        (∀ w ∈ ws, w < sa.length → (sa'.getD w none).isSome = true) := by
  intro ws
  induction ws with
  | nil =>
    intro sa hrec _
    exact ⟨sa, rfl, hrec, rfl, fun x hx => hx, fun w hw => absurd hw (by simp)⟩
  | cons w0 rest ih =>
    intro sa hrec hws
    rw [record_succs]
    cases hsa : sa.getD w0 none with
    | some recorded =>
      dsimp only
      have heq : s₁ = recorded := by
        have := hrec w0 recorded hsa
        have h0 := hws w0 (List.mem_cons_self _ _)
        omega
      rw [if_pos heq]
      obtain ⟨sa', hrun, hrec', hlen', hpres', hdone'⟩ :=
        ih sa hrec (fun w hw => hws w (List.mem_cons_of_mem _ hw))
      refine ⟨sa', hrun, hrec', hlen', hpres', fun w hw hwlt => ?_⟩
      rcases List.mem_cons.mp hw with rfl | hw
      · exact hpres' w (by rw [hsa]; rfl)
      · exact hdone' w hw hwlt
    | none =>
      dsimp only
      set sa2 := sa.set w0 (some s₁) with hsa2
      have hrec2 : ∀ x s, sa2.getD x none = some s → s = L x := by
        intro x s hx
        rw [hsa2, getD_eq_get?, get?_set_lemma] at hx
        split at hx
        · rename_i hcond
          obtain ⟨rfl, -⟩ := hcond
          simp only [Option.getD_some, Option.some.injEq] at hx
          have h0 := hws w0 (List.mem_cons_self _ _)
          omega
        · exact hrec x s (by rw [getD_eq_get?]; exact hx)
      obtain ⟨sa', hrun, hrec', hlen', hpres', hdone'⟩ :=
        ih sa2 hrec2 (fun w hw => hws w (List.mem_cons_of_mem _ hw))
      have hlen2 : sa2.length = sa.length := by rw [hsa2]; simp
      refine ⟨sa', hrun, hrec', by omega, ?_, ?_⟩
      · intro x hx
        refine hpres' x ?_
        rw [hsa2, getD_eq_get?, get?_set_lemma]
        split
        · simp
        · rw [getD_eq_get?] at hx; exact hx
      · intro w hw hwlt
        rcases List.mem_cons.mp hw with rfl | hw
        · refine hpres' w ?_
          rw [hsa2, getD_eq_get?, get?_set_lemma, if_pos ⟨rfl, hwlt⟩]
          simp
        · exact hdone' w hw (by omega)

/-- Helper: before the traversal starts every edge is unvisited. -/
theorem unvisited_out_nil (edges : List (Nat × Nat × Bool)) :
    unvisited_out edges [] = edges.length := by
  simp [unvisited_out]

/-- Helper: under a layout assignment that is consistent along every edge,
the traversal loop completes whenever it has enough fuel. -/
theorem transform_go_ok (cfg : Cfg Instruction JumpCondition) (md : Metadata)
    (L M : Nat → Int)
    (hexec : ∀ v, v < cfg.nodes.length →
      (execute_block (L v) (cfg.nodes.getD v default) md).map Prod.snd = .ok (M v))
    (hedge : ∀ e ∈ cfg.edges,
      L e.2.1 = M e.1 ∧ e.1 < cfg.nodes.length ∧ e.2.1 < cfg.nodes.length) :
    ∀ (fuel : Nat) (st : LiftState), lift_inv cfg L st →
      st.stack.length + unvisited_out cfg.edges st.visited < fuel →
      (transform_go cfg md fuel st).isOk = true := by
  intro fuel
  induction fuel with
  | zero => intro st _ hm; omega
  | succ n ih =>
    intro st hinv hm
    obtain ⟨hrec, hstk, hrange, hlen⟩ := hinv
    rw [transform_go]
    cases hstack : st.stack with
    | nil => rfl
    | cons v rest =>
      dsimp only
      by_cases hvis : st.visited.contains v = true
      · rw [if_pos hvis]
        refine ih _ ⟨hrec, ?_, ?_, hlen⟩ ?_
        · intro w hw
          exact hstk w (by rw [hstack]; exact List.mem_cons_of_mem _ hw)
        · intro w hw
          exact hrange w (by rw [hstack]; exact List.mem_cons_of_mem _ hw)
        · show rest.length + unvisited_out cfg.edges st.visited < n
          rw [hstack] at hm
          simp only [List.length_cons] at hm
          omega
      · rw [if_neg hvis]
        have hvmem : v ∈ st.stack := by rw [hstack]; exact List.mem_cons_self _ _
        have hvn : v < cfg.nodes.length := hrange v hvmem
        have hsome := hstk v hvmem
        cases hsa : st.stack_at.getD v none with
        | none => rw [hsa] at hsome; cases hsome
        | some s =>
          dsimp only
          have hsL : s = L v := hrec v s hsa
          have hex := hexec v hvn
          cases hxb : execute_block (L v) (cfg.nodes.getD v default) md with
          | error e => rw [hxb] at hex; cases hex
          | ok p =>
            obtain ⟨bb, s₁⟩ := p
            rw [hxb] at hex
            have hs₁ : s₁ = M v := by simpa [Except.map] using hex
            rw [hsL, hxb]
            simp only [except_bind_ok]
            have hws : ∀ w ∈ successors cfg.edges v, L w = M v := by
              intro w hw
              obtain ⟨b, hb⟩ := (mem_successors cfg.edges v w).mp hw
              exact (hedge _ hb).1
            obtain ⟨sa2, hrun, hrec2, hlen2, hpres2, hdone2⟩ :=
              record_succs_ok L (M v) (successors cfg.edges v) st.stack_at hrec hws
            rw [hs₁, hrun]
            simp only [except_bind_ok]
            have hpush : ∀ w ∈ ((successors cfg.edges v).filter
                (fun w => !(st.visited ++ [v]).contains w)).reverse,
                w ∈ successors cfg.edges v := by
              intro w hw
              rw [List.mem_reverse] at hw
              exact (List.mem_filter.mp hw).1
            have hsucc_lt : ∀ w ∈ successors cfg.edges v, w < cfg.nodes.length := by
              intro w hw
              obtain ⟨b, hb⟩ := (mem_successors cfg.edges v w).mp hw
              exact (hedge _ hb).2.2
            refine ih _ ⟨hrec2, ?_, ?_, by show sa2.length = cfg.nodes.length; omega⟩ ?_
            · intro w hw
              rcases List.mem_append.mp hw with hw | hw
              · exact hdone2 w (hpush w hw) (by have := hsucc_lt w (hpush w hw); omega)
              · exact hpres2 w (hstk w (by rw [hstack]; exact List.mem_cons_of_mem _ hw))
            · intro w hw
              rcases List.mem_append.mp hw with hw | hw
              · exact hsucc_lt w (hpush w hw)
              · exact hrange w (by rw [hstack]; exact List.mem_cons_of_mem _ hw)
            · show (((successors cfg.edges v).filter
                  (fun w => !(st.visited ++ [v]).contains w)).reverse ++ rest).length +
                unvisited_out cfg.edges (st.visited ++ [v]) < n
              have hnv : v ∉ st.visited := by
                intro hmem
                exact hvis (List.elem_iff.mpr hmem)
              have hvu := unvisited_out_visit st.visited v hnv cfg.edges
              have hps : ((successors cfg.edges v).filter
                  (fun w => !(st.visited ++ [v]).contains w)).length ≤
                  (cfg.edges.filter (fun e => e.1 = v)).length := by
                calc ((successors cfg.edges v).filter
                      (fun w => !(st.visited ++ [v]).contains w)).length
                    ≤ (successors cfg.edges v).length := List.length_filter_le _ _
                  _ = (cfg.edges.filter (fun e => e.1 = v)).length :=
                      successors_length cfg.edges v
              rw [hstack] at hm
              simp only [List.length_cons] at hm
              simp only [List.length_append, List.length_reverse]
              omega

/-- Helper: `getD` on a replicated list of `none` is `none`. -/
theorem replicate_none_getD (n x : Nat) :
    (List.replicate n (none : Option Int)).getD x none = none := by
  induction n generalizing x with
  | zero => rfl
  | succ m ih =>
    cases x with
    | zero => rfl
    | succ y => exact ih y

/-- Helper: a join panic of `transform` is a genuine disagreement at the
target of an existing edge. -/
theorem transform_join (cfg : Cfg Instruction JumpCondition) (md : Metadata)
    (w : Nat) (f ex : Int)
    (h : transform cfg md = .error (.joinMismatch w f ex)) :
    f ≠ ex ∧ ∃ v b, (v, w, b) ∈ cfg.edges := by
  simp only [transform] at h
  cases hgo : transform_go cfg md (cfg.edges.length + cfg.nodes.length + 2)
      (lift_init cfg.nodes.length) with
  | ok bbs =>
    rw [hgo, except_bind_ok] at h
    simp only [pure, Except.pure] at h
    cases h
  | error e =>
    rw [hgo, except_bind_error] at h
    cases h
    exact transform_go_join cfg md _ _ w f ex hgo

/-- Helper: under a layout assignment that is consistent along every edge
and assigns the empty layout to the entry block, `transform` succeeds. -/
theorem transform_ok (cfg : Cfg Instruction JumpCondition) (md : Metadata)
    (L M : Nat → Int) (hL0 : L 0 = 0) (hn : 0 < cfg.nodes.length)
    (hexec : ∀ v, v < cfg.nodes.length →
      (execute_block (L v) (cfg.nodes.getD v default) md).map Prod.snd = .ok (M v))
    (hedge : ∀ e ∈ cfg.edges,
      L e.2.1 = M e.1 ∧ e.1 < cfg.nodes.length ∧ e.2.1 < cfg.nodes.length) :
    (transform cfg md).isOk = true := by
  have hinv : lift_inv cfg L (lift_init cfg.nodes.length) := by
    refine ⟨?_, ?_, ?_, ?_⟩
    · intro x s hx
      show s = L x
      rw [getD_eq_get?] at hx
      simp only [lift_init] at hx
      rw [get?_set_lemma] at hx
      split at hx
      · rename_i hc
        obtain ⟨rfl, -⟩ := hc
        simp only [Option.getD_some, Option.some.injEq] at hx
        omega
      · have hr := replicate_none_getD cfg.nodes.length x
        rw [getD_eq_get?] at hr
        rw [hr] at hx
        cases hx
    · intro v hvmem
      have h0 : v = 0 := by simpa [lift_init] using hvmem
      subst h0
      show (((List.replicate cfg.nodes.length (none : Option Int)).set 0
        (some 0)).getD 0 none).isSome = true
      rw [getD_eq_get?, get?_set_lemma, if_pos ⟨rfl, by simpa using hn⟩]
      rfl
    · intro v hvmem
      have h0 : v = 0 := by simpa [lift_init] using hvmem
      subst h0
      exact hn
    · show ((List.replicate cfg.nodes.length (none : Option Int)).set 0
        (some 0)).length = cfg.nodes.length
      simp
  have hm : (lift_init cfg.nodes.length).stack.length +
      unvisited_out cfg.edges (lift_init cfg.nodes.length).visited <
      cfg.edges.length + cfg.nodes.length + 2 := by
    show 1 + unvisited_out cfg.edges [] < cfg.edges.length + cfg.nodes.length + 2
    rw [unvisited_out_nil]
    omega
  have hgo := transform_go_ok cfg md L M hexec hedge
    (cfg.edges.length + cfg.nodes.length + 2) (lift_init cfg.nodes.length) hinv hm
  cases hres : transform_go cfg md (cfg.edges.length + cfg.nodes.length + 2)
      (lift_init cfg.nodes.length) with
  | error e => rw [hres] at hgo; cases hgo
  | ok bbs =>
    simp only [transform]
    rw [hres, except_bind_ok]
    rfl

/-- C2: during stack-to-variable lifting, a `joinMismatch` failure names a
join block (the target of an existing edge) and reports two genuinely
different layouts there; and whenever one consistent layout assignment
explains every block and every edge, the lifting completes without any
error. -/
theorem c2_join_layout_check :
    (∀ (cfg : Cfg Instruction JumpCondition) (md : Metadata) (w : Nat) (f ex : Int),
        transform cfg md = .error (.joinMismatch w f ex) →
        f ≠ ex ∧ ∃ v b, (v, w, b) ∈ cfg.edges) ∧
    (∀ (cfg : Cfg Instruction JumpCondition) (md : Metadata) (L M : Nat → Int),
        L 0 = 0 → 0 < cfg.nodes.length →
        (∀ v, v < cfg.nodes.length →
          (execute_block (L v) (cfg.nodes.getD v default) md).map Prod.snd = .ok (M v)) →
        (∀ e ∈ cfg.edges,
          L e.2.1 = M e.1 ∧ e.1 < cfg.nodes.length ∧ e.2.1 < cfg.nodes.length) →
        (transform cfg md).isOk = true) :=
  ⟨transform_join, transform_ok⟩

/-- Witness for the C2 theorem on concrete inputs: the genuine join
mismatch behind `mismatch_cfg`'s failure and the successful lift of
`c2ok_cfg`. -/
theorem c2_join_layout_check_witness :
    ((0 : Int) ≠ 1 ∧ ∃ v b, (v, 3, b) ∈ mismatch_cfg.edges) ∧
    (transform c2ok_cfg {}).isOk = true := by
  constructor
  · exact c2_join_layout_check.1 mismatch_cfg {} 3 0 1 (by rfl)
  · refine c2_join_layout_check.2 c2ok_cfg {} (fun _ => 0) (fun _ => 0) rfl
      (by decide) ?_ (by decide)
    intro v hv
    have hv2 : v < 2 := hv
    interval_cases v <;> rfl

end Unjavac
